import Mathlib

/-!
# Proddy bot: store, timer registry and focus-session engine

A shallow embedding of `internal/models`, `internal/storage/memory_storage.go`
and the state-changing handlers of `internal/handlers/message_handler.go`.

Modelling conventions
* A Go `string` is its byte sequence (`GoString`); a source literal is the
  UTF-8 encoding of its text (`goString`).
* A Go pointer is an address (`Ptr`) into a typed heap (`Heap`); the maps of
  `MemoryStorage` hold addresses, exactly as the Go maps hold `*models.X`.
  A write through a pointer is a heap update at that address.
* `time.Time` is `Option Nat`: `none` is the zero time, `some t` an instant
  read from the clock at Unix second `t`.  Every handler call reads the clock
  once (its `now` argument).
* Go `int` counters are `Int`; a counter grows by at most 25 for each expired
  25-minute timer, so the machine range is never reached.
* Handler calls run one after another, as the update loop of `main` makes
  them.  A timer callback runs in a goroutine of its own and `Handler` has no
  lock: the expiry of a timer and the run of its callback body are separate
  steps, and any handler call can come between them.  The callback body
  itself is one step.
* Outbound messages (`api.Messages.Send`) and console output are not part of
  the state.
-/

namespace Proddy

/-! ## Go strings and the library functions the handlers call -/

/-- A Go string: a sequence of bytes. -/
abbrev GoString := List Nat

/-- UTF-8 encoding of one code point. -/
def utf8EncodeRune (r : Nat) : GoString :=
  if r < 0x80 then [r]
  else if r < 0x800 then [0xC0 + r / 64, 0x80 + r % 64]
  else if r < 0x10000 then [0xE0 + r / 4096, 0x80 + r / 64 % 64, 0x80 + r % 64]
  else [0xF0 + r / 262144, 0x80 + r / 4096 % 64, 0x80 + r / 64 % 64, 0x80 + r % 64]

/-- The bytes of a Go source string literal. -/
def goString (s : String) : GoString :=
  s.toList.flatMap (fun c => utf8EncodeRune c.toNat)

/-- The value `utf8.RuneError`. -/
def RuneError : Nat := 0xFFFD

/-- Continuation byte test (`locb <= b <= hicb`). -/
def isCont (b : Nat) : Bool := 0x80 ≤ b && b ≤ 0xBF

/-- Model of `utf8.DecodeRuneInString`: the first rune of `s` and its width in bytes.
Invalid or truncated encodings decode to `RuneError` of width 1. -/
def DecodeRuneInString (s : GoString) : Nat × Nat :=
  match s with
  | [] => (RuneError, 0)
  | s0 :: rest =>
    if s0 < 0x80 then (s0, 1)
    else if s0 < 0xC2 then (RuneError, 1)
    else if s0 < 0xE0 then
      match rest with
      | s1 :: _ => if isCont s1 then ((s0 % 32) * 64 + s1 % 64, 2) else (RuneError, 1)
      | _ => (RuneError, 1)
    else if s0 < 0xF0 then
      match rest with
      | s1 :: s2 :: _ =>
        let lo := if s0 = 0xE0 then 0xA0 else 0x80
        let hi := if s0 = 0xED then 0x9F else 0xBF
        if s1 < lo || hi < s1 then (RuneError, 1)
        else if !isCont s2 then (RuneError, 1)
        else ((s0 % 16) * 4096 + (s1 % 64) * 64 + s2 % 64, 3)
      | _ => (RuneError, 1)
    else if s0 < 0xF5 then
      match rest with
      | s1 :: s2 :: s3 :: _ =>
        let lo := if s0 = 0xF0 then 0x90 else 0x80
        let hi := if s0 = 0xF4 then 0x8F else 0xBF
        if s1 < lo || hi < s1 then (RuneError, 1)
        else if !isCont s2 then (RuneError, 1)
        else if !isCont s3 then (RuneError, 1)
        else ((s0 % 8) * 262144 + (s1 % 64) * 4096 + (s2 % 64) * 64 + s3 % 64, 4)
      | _ => (RuneError, 1)
    else (RuneError, 1)

/-- Model of `utf8.RuneStart`. -/
def RuneStart (b : Nat) : Bool := !isCont b

/-- The backwards scan of `utf8.DecodeLastRuneInString`: starting at index `start`,
step down while `start >= lim` and the byte there does not start a rune. -/
def lastRuneScan (s : GoString) (lim : Nat) : Nat → Option Nat
  | 0 => if 0 < lim then none else if RuneStart (s.getD 0 0) then some 0 else none
  | start + 1 =>
    if start + 1 < lim then none
    else if RuneStart (s.getD (start + 1) 0) then some (start + 1)
    else lastRuneScan s lim start

/-- Model of `utf8.DecodeLastRuneInString`: the last rune of `s` and its width. -/
def DecodeLastRuneInString (s : GoString) : Nat × Nat :=
  let e := s.length
  if e = 0 then (RuneError, 0)
  else
    let last := s.getD (e - 1) 0
    if last < 0x80 then (last, 1)
    else
      let lim := e - 4
      -- the loop starts at `end - 2`; it is skipped when that is negative, and a
      -- scan that runs below `lim` leaves `start = lim - 1`, clamped at 0
      let start := if e < 2 then 0 else
        match lastRuneScan s lim (e - 2) with
        | some i => i
        | none => lim - 1
      let d := DecodeRuneInString (s.drop start)
      if start + d.2 ≠ e then (RuneError, 1) else d

/-- Model of `unicode.IsSpace`. -/
def IsSpace (r : Nat) : Bool :=
  if r ≤ 0xFF then
    r = 0x09 || r = 0x0A || r = 0x0B || r = 0x0C || r = 0x0D || r = 0x20 || r = 0x85 || r = 0xA0
  else
    r = 0x1680 || (0x2000 ≤ r && r ≤ 0x200A) || r = 0x2028 || r = 0x2029 || r = 0x202F
      || r = 0x205F || r = 0x3000

/-- The runes of a string in order, each with its bytes, as `for range s` yields them. -/
def runesAux : Nat → GoString → List (Nat × GoString)
  | 0, _ => []
  | _ + 1, [] => []
  | fuel + 1, b :: rest =>
    let d := DecodeRuneInString (b :: rest)
    (d.1, (b :: rest).take d.2) :: runesAux fuel ((b :: rest).drop d.2)

/-- The runes of a string with their bytes. -/
def runes (s : GoString) : List (Nat × GoString) := runesAux s.length s

/-- The field-collecting loop of `strings.FieldsFunc`: `cur` is the open field, if any. -/
def fieldsAux : List (Nat × GoString) → Option GoString → List GoString
  | [], none => []
  | [], some cur => [cur]
  | (r, bs) :: rest, none =>
    if IsSpace r then fieldsAux rest none else fieldsAux rest (some bs)
  | (r, bs) :: rest, some cur =>
    if IsSpace r then cur :: fieldsAux rest none else fieldsAux rest (some (cur ++ bs))

/-- Model of `strings.Fields`: the maximal runs of non-space runes. -/
def Fields (s : GoString) : List GoString := fieldsAux (runes s) none

/-- Model of `strings.TrimLeftFunc(s, unicode.IsSpace)`. -/
def trimLeftSpace (s : GoString) : GoString :=
  ((runes s).dropWhile (fun p => IsSpace p.1)).flatMap (fun p => p.2)

/-- Model of `strings.TrimRightFunc(s, unicode.IsSpace)`, decoding from the end. -/
def trimRightSpaceAux : Nat → GoString → GoString
  | 0, s => s
  | fuel + 1, s =>
    if s = [] then s
    else
      let d := DecodeLastRuneInString s
      if IsSpace d.1 then trimRightSpaceAux fuel (s.take (s.length - d.2)) else s

/-- Model of `strings.TrimSpace`. -/
def TrimSpace (s : GoString) : GoString :=
  let l := trimLeftSpace s
  trimRightSpaceAux l.length l

/-- The scanning loop of `strings.Split` for a non-empty separator: `skip` counts the
bytes of a matched separator still to pass, `cur` is the piece being collected. -/
def splitAux (sep : GoString) : GoString → Nat → GoString → List GoString
  | [], _, cur => [cur]
  | _ :: rest, skip + 1, cur => splitAux sep rest skip cur
  | b :: rest, 0, cur =>
    if sep.isPrefixOf (b :: rest) then cur :: splitAux sep rest (sep.length - 1) []
    else splitAux sep rest 0 (cur ++ [b])

/-- Model of `strings.Split(s, sep)` for a non-empty `sep`. -/
def Split (s sep : GoString) : List GoString := splitAux sep s 0 []

/-- ASCII digit test. -/
def isDigit (b : Nat) : Bool := 48 ≤ b && b ≤ 57

/-- Model of `strconv.Atoi`: an optional sign and decimal digits, within the 64-bit
`int` range; `none` stands for a non-nil error. -/
def Atoi (s : GoString) : Option Int :=
  let neg := s.head? = some 45
  let ds := if s.head? = some 45 ∨ s.head? = some 43 then s.tail else s
  if ds = [] then none
  else if ds.all isDigit then
    let n : Int := (ds.foldl (fun a d => a * 10 + (d - 48)) 0 : Nat)
    let v := if neg then -n else n
    if -(2 ^ 63 : Int) ≤ v ∧ v < (2 ^ 63 : Int) then some v else none
  else none

/-- Model of `fmt.Sprintf("%d", n)` for a non-negative `n`. -/
def itoa (n : Nat) : GoString := (Nat.toDigits 10 n).map Char.toNat

/-! ## Data model (`internal/models`) -/

/-- A Go pointer: an address in a typed heap. -/
abbrev Ptr := Nat

/-- A `time.Time`: `none` is the zero time, `some t` an instant at Unix second `t`. -/
abbrev Time := Option Nat

/-- The type `models.User`. -/
structure User where
  ID : GoString
  MAXUserID : GoString
  FirstName : GoString
  Username : GoString
  RegistrationDate : Time
  LastActivity : Time
deriving DecidableEq, Repr, Inhabited

/-- The type `models.Task`; `Deadline` is a nullable `*time.Time`. -/
structure Task where
  ID : GoString
  UserID : GoString
  Text : GoString
  Created : Time
  Deadline : Option Time
  Completed : Bool
  Priority : GoString
  Category : GoString
deriving DecidableEq, Repr, Inhabited

/-- The type `models.GoalStep`. -/
structure GoalStep where
  ID : GoString
  Text : GoString
  Completed : Bool
deriving DecidableEq, Repr, Inhabited

/-- The type `models.Goal`. -/
structure Goal where
  ID : GoString
  UserID : GoString
  Title : GoString
  Description : GoString
  Created : Time
  Deadline : Time
  Steps : List GoalStep
  Progress : Int
  Completed : Bool
deriving DecidableEq, Repr, Inhabited

/-- The type `models.PomodoroSession`; its field `Type` is `SessionType` here. -/
structure PomodoroSession where
  ID : GoString
  UserID : GoString
  StartTime : Time
  EndTime : Time
  Duration : Int
  Completed : Bool
  SessionType : GoString
  Interrupted : Bool
deriving DecidableEq, Repr, Inhabited

/-- The type `models.PomodoroStats`. -/
structure PomodoroStats where
  UserID : GoString
  TotalSessions : Int
  CompletedToday : Int
  TotalFocusTime : Int
  CurrentStreak : Int
deriving DecidableEq, Repr, Inhabited

/-- The type `models.UserSettings`. -/
structure UserSettings where
  PomodoroWorkDuration : Int
  PomodoroBreakDuration : Int
  NotificationsEnabled : Bool
deriving DecidableEq, Repr, Inhabited

/-- The type `models.UserData`. -/
structure UserData where
  UserID : GoString
  PomodoroSessions : List PomodoroSession
  Tasks : List Task
  Goals : List Goal
  Settings : UserSettings
deriving DecidableEq, Repr, Inhabited

/-! ## Heap and maps -/

/-- A typed heap: `next` is the first address not yet handed out. -/
structure Heap (α : Type) where
  next : Ptr
  obj : Ptr → α

/-- The empty heap. -/
def Heap.empty {α : Type} [Inhabited α] : Heap α := { next := 0, obj := fun _ => default }

/-- Allocation `&T{...}`: the new object lives at address `h.next`. -/
def Heap.alloc {α : Type} (h : Heap α) (v : α) : Heap α :=
  { next := h.next + 1, obj := fun p => if p = h.next then v else h.obj p }

/-- A write through the pointer `p`. -/
def Heap.store {α : Type} (h : Heap α) (p : Ptr) (v : α) : Heap α :=
  { h with obj := fun q => if q = p then v else h.obj q }

/-- A Go `map[string]V`. -/
abbrev GoMap (β : Type) := GoString → Option β

/-- The result of `make(map[string]V)`. -/
def GoMap.empty {β : Type} : GoMap β := fun _ => none

/-- The assignment `m[k] = v`. -/
def GoMap.set {β : Type} (m : GoMap β) (k : GoString) (v : β) : GoMap β :=
  fun k' => if k' = k then some v else m k'

/-- The statement `delete(m, k)`. -/
def GoMap.delete {β : Type} (m : GoMap β) (k : GoString) : GoMap β :=
  fun k' => if k' = k then none else m k'

/-- The objects the store's pointers refer to. -/
structure Memory where
  users : Heap User
  tasks : Heap Task
  goals : Heap Goal
  sessions : Heap PomodoroSession
  stats : Heap PomodoroStats

/-- A Go `error`; `none` is `nil`. -/
abbrev GoError := Option GoString

/-! ## Store (`internal/storage/memory_storage.go`) -/

/-- The maps of `storage.MemoryStorage` (the mutex is not modelled: calls are atomic).
`userData` holds `*models.UserData`; no code writes through that pointer, so the
value is kept in the map. -/
structure MemoryStorage where
  users : GoMap Ptr
  userData : GoMap UserData
  pomodoroStats : GoMap Ptr
  tasks : GoMap (List Ptr)
  goals : GoMap (List Ptr)
  pomodoroSessions : GoMap (List Ptr)

/-- The constructor `NewMemoryStorage`. -/
def NewMemoryStorage : MemoryStorage :=
  { users := GoMap.empty, userData := GoMap.empty, pomodoroStats := GoMap.empty,
    tasks := GoMap.empty, goals := GoMap.empty, pomodoroSessions := GoMap.empty }

/-- The method `SaveUser`: stamps the object behind `user` and stores the pointer. -/
def SaveUser (s : MemoryStorage) (mem : Memory) (user : Ptr) (now : Nat) :
    (MemoryStorage × Memory) × GoError :=
  let u0 := mem.users.obj user
  let u1 := if u0.RegistrationDate = none then { u0 with RegistrationDate := some now } else u0
  let u2 := { u1 with LastActivity := some now }
  let mem1 := { mem with users := mem.users.store user u2 }
  let s1 := { s with users := s.users.set u2.MAXUserID user }
  let s2 :=
    if s1.userData u2.MAXUserID = none then
      let settings : UserSettings :=
        { PomodoroWorkDuration := 25, PomodoroBreakDuration := 5, NotificationsEnabled := true }
      let data : UserData :=
        { UserID := u2.MAXUserID, PomodoroSessions := [], Tasks := [], Goals := [],
          Settings := settings }
      { s1 with userData := s1.userData.set u2.MAXUserID data }
    else s1
  ((s2, mem1), none)

/-- The method `GetUser`: the stored pointer, or `nil` (`none`). -/
def GetUser (s : MemoryStorage) (userID : GoString) : Option Ptr × GoError :=
  match s.users userID with
  | none => (none, none)
  | some user => (some user, none)

/-- The method `UpdateUserActivity`. -/
def UpdateUserActivity (s : MemoryStorage) (mem : Memory) (userID : GoString) (now : Nat) :
    Memory × GoError :=
  match s.users userID with
  | some user =>
    let u : User := { mem.users.obj user with LastActivity := some now }
    ({ mem with users := mem.users.store user u }, none)
  | none => (mem, none)

/-- The method `GetUserData`. -/
def GetUserData (s : MemoryStorage) (userID : GoString) : Option UserData × GoError :=
  match s.userData userID with
  | none => (none, none)
  | some data => (some data, none)

/-- The method `SaveUserData`. -/
def SaveUserData (s : MemoryStorage) (data : UserData) : MemoryStorage × GoError :=
  ({ s with userData := s.userData.set data.UserID data }, none)

/-- The value of `m[k]` for a slice-valued map: the nil slice when absent. -/
def sliceAt (m : GoMap (List Ptr)) (k : GoString) : List Ptr :=
  match m k with
  | none => []
  | some l => l

/-- The method `SaveTask`. -/
def SaveTask (s : MemoryStorage) (mem : Memory) (task : Ptr) (now : Nat) :
    (MemoryStorage × Memory) × GoError :=
  let t0 := mem.tasks.obj task
  let t1 := if t0.Created = none then { t0 with Created := some now } else t0
  let mem1 := { mem with tasks := mem.tasks.store task t1 }
  (({ s with tasks := s.tasks.set t1.UserID (sliceAt s.tasks t1.UserID ++ [task]) }, mem1), none)

/-- The method `GetUserTasks`. -/
def GetUserTasks (s : MemoryStorage) (userID : GoString) : List Ptr × GoError :=
  match s.tasks userID with
  | none => ([], none)
  | some tasks => (tasks, none)

/-- Index of the first element satisfying `p`: a `for i, x := range xs` loop that
breaks at the first hit. -/
def firstIndex {α : Type} (p : α → Bool) : List α → Option Nat
  | [] => none
  | a :: l => if p a then some 0 else (firstIndex p l).map (· + 1)

/-- The method `DeleteTask`: removes the first task of the user whose `ID` is `taskID`. -/
def DeleteTask (s : MemoryStorage) (mem : Memory) (userID taskID : GoString) :
    MemoryStorage × GoError :=
  match s.tasks userID with
  | none => (s, none)
  | some tasks =>
    match firstIndex (fun task => decide ((mem.tasks.obj task).ID = taskID)) tasks with
    | some i => ({ s with tasks := s.tasks.set userID (tasks.take i ++ tasks.drop (i + 1)) }, none)
    | none => (s, none)

/-- The method `SaveGoal`. -/
def SaveGoal (s : MemoryStorage) (mem : Memory) (goal : Ptr) (now : Nat) :
    (MemoryStorage × Memory) × GoError :=
  let g0 := mem.goals.obj goal
  let g1 := if g0.Created = none then { g0 with Created := some now } else g0
  let mem1 := { mem with goals := mem.goals.store goal g1 }
  (({ s with goals := s.goals.set g1.UserID (sliceAt s.goals g1.UserID ++ [goal]) }, mem1), none)

/-- The method `GetUserGoals`. -/
def GetUserGoals (s : MemoryStorage) (userID : GoString) : List Ptr × GoError :=
  match s.goals userID with
  | none => ([], none)
  | some goals => (goals, none)

/-- The method `SavePomodoroSession`. -/
def SavePomodoroSession (s : MemoryStorage) (mem : Memory) (session : Ptr) :
    MemoryStorage × GoError :=
  let uid := (mem.sessions.obj session).UserID
  ({ s with pomodoroSessions :=
      s.pomodoroSessions.set uid (sliceAt s.pomodoroSessions uid ++ [session]) }, none)

/-- The method `GetUserPomodoroSessions`. -/
def GetUserPomodoroSessions (s : MemoryStorage) (userID : GoString) : List Ptr × GoError :=
  match s.pomodoroSessions userID with
  | none => ([], none)
  | some sessions => (sessions, none)

/-- The method `GetPomodoroStats`: the stored pointer, or a freshly allocated zero
record carrying the user ID. -/
def GetPomodoroStats (s : MemoryStorage) (mem : Memory) (userID : GoString) :
    (Ptr × Memory) × GoError :=
  match s.pomodoroStats userID with
  | none =>
    let fresh : PomodoroStats :=
      { UserID := userID, TotalSessions := 0, CompletedToday := 0, TotalFocusTime := 0,
        CurrentStreak := 0 }
    ((mem.stats.next, { mem with stats := mem.stats.alloc fresh }), none)
  | some stats => ((stats, mem), none)

/-- The method `UpdatePomodoroStats`. -/
def UpdatePomodoroStats (s : MemoryStorage) (mem : Memory) (stats : Ptr) :
    MemoryStorage × GoError :=
  ({ s with pomodoroStats := s.pomodoroStats.set (mem.stats.obj stats).UserID stats }, none)

/-! ## Timers and the handler (`internal/handlers/message_handler.go`) -/

/-- What a timer created by `time.AfterFunc` runs when it fires: the closure of
`startPomodoro` (it holds the user ID and the session pointer, and reads `session.ID`
when it runs) or the closure of `startBreak`. -/
inductive Callback where
  | work (userID : GoString) (session : Ptr)
  | rest (userID : GoString)
deriving DecidableEq, Repr

/-- The user a callback belongs to. -/
def Callback.userID : Callback → GoString
  | .work u _ => u
  | .rest u => u

/-- Life cycle of a timer made by `time.AfterFunc`: pending (`armed`), stopped by
`Stop`, expired (the runtime has started the callback in its own goroutine, the callback
body has not run yet), or done (the callback body has run). -/
inductive TimerState where
  | armed
  | stopped
  | expired
  | done
deriving DecidableEq, Repr

/-- A `time.Timer` made by `time.AfterFunc`. -/
structure Timer where
  callback : Callback
  state : TimerState
deriving DecidableEq, Repr

instance : Inhabited Timer := ⟨{ callback := .rest [], state := .stopped }⟩

/-- The call `timer.Stop()`: a pending timer will not fire; on a timer that has expired
or was stopped the call changes nothing, so a callback already started still runs. -/
def stopTimer (timers : Heap Timer) (t : Ptr) : Heap Timer :=
  if (timers.obj t).state = .armed then
    timers.store t { timers.obj t with state := .stopped }
  else timers

/-- The type `handlers.Handler`. -/
structure Handler where
  storage : MemoryStorage
  activeTimers : GoMap Ptr
  pomodoroStatus : GoMap GoString

/-- The whole program state: the handler, the objects its pointers refer to and the
timers of the runtime. -/
structure World where
  mem : Memory
  timers : Heap Timer
  h : Handler

/-- The constructor `handlers.New` applied to `NewMemoryStorage()`, as in `main`. -/
def New : World :=
  { mem := { users := Heap.empty, tasks := Heap.empty, goals := Heap.empty,
             sessions := Heap.empty, stats := Heap.empty },
    timers := Heap.empty,
    h := { storage := NewMemoryStorage, activeTimers := GoMap.empty,
           pomodoroStatus := GoMap.empty } }

/-- The method `registerUser`; `firstName` and `username` are the sender's fields. -/
def registerUser (w : World) (firstName username userID : GoString) (now : Nat) : World :=
  let user := w.mem.users.next
  let fresh : User :=
    { ID := userID, MAXUserID := userID, FirstName := firstName, Username := username,
      RegistrationDate := some now, LastActivity := some now }
  let mem1 := { w.mem with users := w.mem.users.alloc fresh }
  match (GetUser w.h.storage userID).1 with
  | none =>
    let r := (SaveUser w.h.storage mem1 user now).1
    { w with mem := r.2, h := { w.h with storage := r.1 } }
  | some _ =>
    { w with mem := (UpdateUserActivity w.h.storage mem1 userID now).1 }

/-- The method `startPomodoro`. -/
def startPomodoro (w : World) (userID : GoString) (now : Nat) : World :=
  let timers1 :=
    match w.h.activeTimers userID with
    | some timer => stopTimer w.timers timer
    | none => w.timers
  let status := w.h.pomodoroStatus.set userID (goString "работа ⏰ 25 мин")
  let session := w.mem.sessions.next
  let fresh : PomodoroSession :=
    { ID := itoa now, UserID := userID, StartTime := some now, EndTime := none, Duration := 25,
      Completed := false, SessionType := goString "work", Interrupted := false }
  let mem1 := { w.mem with sessions := w.mem.sessions.alloc fresh }
  let storage1 := (SavePomodoroSession w.h.storage mem1 session).1
  let timer := timers1.next
  let timers2 := timers1.alloc { callback := .work userID session, state := .armed }
  { mem := mem1, timers := timers2,
    h := { storage := storage1, activeTimers := w.h.activeTimers.set userID timer,
           pomodoroStatus := status } }

/-- The method `stopPomodoro`. -/
def stopPomodoro (w : World) (userID : GoString) (now : Nat) : World :=
  let timers1 :=
    match w.h.activeTimers userID with
    | some timer => stopTimer w.timers timer
    | none => w.timers
  let active1 :=
    match w.h.activeTimers userID with
    | some _ => w.h.activeTimers.delete userID
    | none => w.h.activeTimers
  let status := w.h.pomodoroStatus.set userID (goString "остановлен")
  let sessions := (GetUserPomodoroSessions w.h.storage userID).1
  let mem1 :=
    if sessions.length > 0 then
      let lastSession := sessions.getD (sessions.length - 1) 0
      if !(w.mem.sessions.obj lastSession).Completed then
        let marked : PomodoroSession :=
          { w.mem.sessions.obj lastSession with Interrupted := true, EndTime := some now }
        { w.mem with sessions := w.mem.sessions.store lastSession marked }
      else w.mem
    else w.mem
  { mem := mem1, timers := timers1,
    h := { w.h with activeTimers := active1, pomodoroStatus := status } }

/-- The method `startBreak`. -/
def startBreak (w : World) (userID : GoString) : World :=
  let timers1 :=
    match w.h.activeTimers userID with
    | some timer => stopTimer w.timers timer
    | none => w.timers
  let status := w.h.pomodoroStatus.set userID (goString "перерыв ☕ 5 мин")
  let timer := timers1.next
  let timers2 := timers1.alloc { callback := .rest userID, state := .armed }
  { w with timers := timers2,
           h := { w.h with activeTimers := w.h.activeTimers.set userID timer,
                           pomodoroStatus := status } }

/-- The method `completePomodoro`. -/
def completePomodoro (w : World) (userID : GoString) (now : Nat) (sessionID : GoString) :
    World :=
  let active1 := w.h.activeTimers.delete userID
  let status := w.h.pomodoroStatus.set userID (goString "завершен")
  let sessions := (GetUserPomodoroSessions w.h.storage userID).1
  let mem1 :=
    match sessions.find? (fun session => decide ((w.mem.sessions.obj session).ID = sessionID)) with
    | some session =>
      let marked : PomodoroSession :=
        { w.mem.sessions.obj session with Completed := true, EndTime := some now }
      { w.mem with sessions := w.mem.sessions.store session marked }
    | none => w.mem
  let r := (GetPomodoroStats w.h.storage mem1 userID).1
  let stats := r.1
  let old := r.2.stats.obj stats
  let bumped : PomodoroStats :=
    { old with TotalSessions := old.TotalSessions + 1, CompletedToday := old.CompletedToday + 1,
               TotalFocusTime := old.TotalFocusTime + 25 }
  let mem2 := { r.2 with stats := r.2.stats.store stats bumped }
  let storage1 := (UpdatePomodoroStats w.h.storage mem2 stats).1
  { w with mem := mem2,
           h := { storage := storage1, activeTimers := active1, pomodoroStatus := status } }

/-- The method `completeBreak`. -/
def completeBreak (w : World) (userID : GoString) : World :=
  { w with h := { w.h with activeTimers := w.h.activeTimers.delete userID,
                           pomodoroStatus :=
                             w.h.pomodoroStatus.set userID (goString "перерыв завершен") } }

/-- A pending timer expires: the runtime starts its callback in a goroutine of its own.
From now on `Stop` does not reach the timer.  A timer that is not pending does not
expire. -/
def timerExpires (w : World) (t : Ptr) : World :=
  if (w.timers.obj t).state = .armed then
    { w with timers := w.timers.store t { w.timers.obj t with state := .expired } }
  else w

/-- The goroutine of an expired timer runs the callback body.  The handler has no lock,
so handler calls and other callbacks may have run since the timer expired. -/
def callbackRuns (w : World) (t : Ptr) (now : Nat) : World :=
  if (w.timers.obj t).state = .expired then
    let w1 := { w with timers := w.timers.store t { w.timers.obj t with state := .done } }
    match (w.timers.obj t).callback with
    | .work userID session => completePomodoro w1 userID now (w1.mem.sessions.obj session).ID
    | .rest userID => completeBreak w1 userID
  else w

/-- The number-extracting loop shared by `deleteTask`, `completeTask` and `deleteGoal`:
the first field that `Atoi` accepts with `0 < num <= n`, or 0 when there is none. -/
def numberFromParts (n : Nat) : List GoString → Int
  | [] => 0
  | part :: rest =>
    match Atoi part with
    | some num => if num > 0 ∧ num ≤ (n : Int) then num else numberFromParts n rest
    | none => numberFromParts n rest

/-- The method `addTask`: the reply and the new state. -/
def addTask (w : World) (text userID : GoString) (now : Nat) : GoString × World :=
  let parts := Split text (goString "задач")
  let parts1 :=
    if parts.length > 1 ∧ (parts.getD 1 []).length > 0 then (parts.getD 1 []).drop 1
    else parts.getD 1 []
  if parts.length < 2 then
    (goString "❌ Укажи описание задачи. Например: \"добавить задачу прочитать книгу\"", w)
  else
    let taskDescription := TrimSpace parts1
    if taskDescription = [] then
      (goString "❌ Описание задачи не может быть пустым", w)
    else
      let task := w.mem.tasks.next
      let fresh : Task :=
        { ID := itoa now, UserID := userID, Text := taskDescription, Created := some now,
          Deadline := none, Completed := false, Priority := goString "medium",
          Category := goString "personal" }
      let mem1 := { w.mem with tasks := w.mem.tasks.alloc fresh }
      let r := SaveTask w.h.storage mem1 task now
      if r.2 ≠ none then
        (goString "❌ Ошибка при добавлении задачи", { w with mem := mem1 })
      else
        (goString "✅ Задача добавлена: \"" ++ taskDescription
            ++ goString "\"\n\nИспользуй \"список задач\" чтобы посмотреть все задачи.",
          { w with mem := r.1.2, h := { w.h with storage := r.1.1 } })

/-- The method `deleteTask`: the reply and the new state. -/
def deleteTask (w : World) (text userID : GoString) : GoString × World :=
  let tasks := (GetUserTasks w.h.storage userID).1
  if tasks.length = 0 then
    (goString "📝 У тебя пока нет задач для удаления!", w)
  else
    let taskNumber := numberFromParts tasks.length (Fields text)
    if taskNumber = 0 then
      (goString "❌ Укажи номер задачи для удаления. Например: \"удалить задачу 1\"", w)
    else
      let taskToDelete := tasks.getD (taskNumber - 1).toNat 0
      let r := DeleteTask w.h.storage w.mem userID (w.mem.tasks.obj taskToDelete).ID
      if r.2 ≠ none then
        (goString "❌ Ошибка при удалении задачи", w)
      else
        (goString "✅ Задача удалена: \"" ++ (w.mem.tasks.obj taskToDelete).Text ++ goString "\"",
          { w with h := { w.h with storage := r.1 } })

/-- The method `completeTask`: the reply and the new state. -/
def completeTask (w : World) (text userID : GoString) : GoString × World :=
  let tasks := (GetUserTasks w.h.storage userID).1
  if tasks.length = 0 then
    (goString "📝 У тебя пока нет задач!", w)
  else
    let taskNumber := numberFromParts tasks.length (Fields text)
    if taskNumber = 0 then
      (goString "❌ Укажи номер задачи для выполнения. Например: \"выполнить задачу 1\"", w)
    else
      let taskToComplete := tasks.getD (taskNumber - 1).toNat 0
      let done : Task := { w.mem.tasks.obj taskToComplete with Completed := true }
      (goString "✅ Задача выполнена: \"" ++ done.Text ++ goString "\"\n\nОтличная работа! 🎉",
        { w with mem := { w.mem with tasks := w.mem.tasks.store taskToComplete done } })

/-- The method `completeTaskByID` (button callback). -/
def completeTaskByID (w : World) (userID taskID : GoString) : World :=
  let tasks := (GetUserTasks w.h.storage userID).1
  match tasks.find? (fun task => decide ((w.mem.tasks.obj task).ID = taskID)) with
  | some task =>
    let done : Task := { w.mem.tasks.obj task with Completed := true }
    { w with mem := { w.mem with tasks := w.mem.tasks.store task done } }
  | none => w

/-- The method `deleteTaskByID` (button callback). -/
def deleteTaskByID (w : World) (userID taskID : GoString) : World :=
  let tasks := (GetUserTasks w.h.storage userID).1
  match tasks.find? (fun task => decide ((w.mem.tasks.obj task).ID = taskID)) with
  | some _ =>
    let r := DeleteTask w.h.storage w.mem userID taskID
    if r.2 ≠ none then w else { w with h := { w.h with storage := r.1 } }
  | none => w

/-- The method `addGoal`: the reply and the new state.  `deadline` is the instant
`time.Now().AddDate(0, 1, 0)` evaluates to. -/
def addGoal (w : World) (text userID : GoString) (now deadline : Nat) : GoString × World :=
  let parts := Split text (goString "цел")
  if parts.length < 2 then
    (goString "❌ Укажи описание цели. Например: \"добавить цель выучить английский\"", w)
  else
    let goalTitle := TrimSpace (parts.getD 1 [])
    if goalTitle = [] then
      (goString "❌ Название цели не может быть пустым", w)
    else
      let goal := w.mem.goals.next
      let fresh : Goal :=
        { ID := itoa now, UserID := userID, Title := goalTitle,
          Description := goString "Описание цели", Created := some now,
          Deadline := some deadline, Steps := [], Progress := 0, Completed := false }
      let mem1 := { w.mem with goals := w.mem.goals.alloc fresh }
      let r := SaveGoal w.h.storage mem1 goal now
      if r.2 ≠ none then
        (goString "❌ Ошибка при добавлении цели", { w with mem := mem1 })
      else
        (goString "✅ Цель добавлена: \"" ++ goalTitle
            ++ goString "\"\n\nИспользуй \"список целей\" чтобы посмотреть все цели.",
          { w with mem := r.1.2, h := { w.h with storage := r.1.1 } })

/-- The method `deleteGoal`: the reply and the new state. -/
def deleteGoal (w : World) (text userID : GoString) : GoString × World :=
  let goals := (GetUserGoals w.h.storage userID).1
  if goals.length = 0 then
    (goString "🎯 У тебя пока нет целей для удаления!", w)
  else
    let goalNumber := numberFromParts goals.length (Fields text)
    if goalNumber = 0 then
      (goString "❌ Укажи номер цели для удаления. Например: \"удалить цель 1\"", w)
    else
      let goalToDelete := goals.getD (goalNumber - 1).toNat 0
      (goString "✅ Цель удалена: \"" ++ (w.mem.goals.obj goalToDelete).Title ++ goString "\"", w)

/-! ## Engine events and runs -/

/-- One engine step: a handler call with its arguments and clock reading (the update
loop of `main` makes these calls one after another), the expiry of a timer, or the run of
the callback of an expired timer.  Expiry and callback run are separate steps, so any
other step can come between them. -/
inductive Event where
  | registerUser (firstName username userID : GoString) (now : Nat)
  | startPomodoro (userID : GoString) (now : Nat)
  | stopPomodoro (userID : GoString) (now : Nat)
  | startBreak (userID : GoString)
  | timerExpires (t : Ptr)
  | callbackRuns (t : Ptr) (now : Nat)
  | addTask (text userID : GoString) (now : Nat)
  | deleteTask (text userID : GoString)
  | completeTask (text userID : GoString)
  | completeTaskByID (userID taskID : GoString)
  | deleteTaskByID (userID taskID : GoString)
  | addGoal (text userID : GoString) (now deadline : Nat)
  | deleteGoal (text userID : GoString)
deriving DecidableEq, Repr

/-- The state after one event. -/
def step (w : World) : Event → World
  | .registerUser f n u now => registerUser w f n u now
  | .startPomodoro u now => startPomodoro w u now
  | .stopPomodoro u now => stopPomodoro w u now
  | .startBreak u => startBreak w u
  | .timerExpires t => timerExpires w t
  | .callbackRuns t now => callbackRuns w t now
  | .addTask text u now => (addTask w text u now).2
  | .deleteTask text u => (deleteTask w text u).2
  | .completeTask text u => (completeTask w text u).2
  | .completeTaskByID u id => completeTaskByID w u id
  | .deleteTaskByID u id => deleteTaskByID w u id
  | .addGoal text u now deadline => (addGoal w text u now deadline).2
  | .deleteGoal text u => (deleteGoal w text u).2

/-- The state after a sequence of events, starting from `w`. -/
def runFrom (w : World) (es : List Event) : World := es.foldl step w

/-- The state after a sequence of events, starting from the fresh handler. -/
def run (es : List Event) : World := runFrom New es

/-! ## Observations: what the store's read operations return, dereferenced -/

/-- The user record `GetUser` returns, if any. -/
def userOf (w : World) (userID : GoString) : Option User :=
  (GetUser w.h.storage userID).1.map w.mem.users.obj

/-- The tasks `GetUserTasks` returns, in order. -/
def tasksOf (w : World) (userID : GoString) : List Task :=
  (GetUserTasks w.h.storage userID).1.map w.mem.tasks.obj

/-- The goals `GetUserGoals` returns, in order. -/
def goalsOf (w : World) (userID : GoString) : List Goal :=
  (GetUserGoals w.h.storage userID).1.map w.mem.goals.obj

/-- The sessions `GetUserPomodoroSessions` returns, in order. -/
def sessionsOf (w : World) (userID : GoString) : List PomodoroSession :=
  (GetUserPomodoroSessions w.h.storage userID).1.map w.mem.sessions.obj

/-- The statistics `GetPomodoroStats` returns. -/
def statsOf (w : World) (userID : GoString) : PomodoroStats :=
  let r := (GetPomodoroStats w.h.storage w.mem userID).1
  r.2.stats.obj r.1

/-- The timer `t` is pending and belongs to `userID`. -/
def armedFor (w : World) (userID : GoString) (t : Ptr) : Prop :=
  (w.timers.obj t).state = .armed ∧ (w.timers.obj t).callback.userID = userID

instance (w : World) (userID : GoString) (t : Ptr) : Decidable (armedFor w userID t) := by
  unfold armedFor; infer_instance

/-! ## Auxiliary definitions used in the statements -/

/-- The record `SaveUser` leaves behind the pointer it is given. -/
def savedUser (u0 : User) (now : Nat) : User :=
  { (if u0.RegistrationDate = none then { u0 with RegistrationDate := some now } else u0) with
    LastActivity := some now }

/-- The record `SaveTask` leaves behind the pointer it is given. -/
def savedTask (t0 : Task) (now : Nat) : Task :=
  if t0.Created = none then { t0 with Created := some now } else t0

/-- The record `SaveGoal` leaves behind the pointer it is given. -/
def savedGoal (g0 : Goal) (now : Nat) : Goal :=
  if g0.Created = none then { g0 with Created := some now } else g0

/-- The registered timer of `userID`, if any, stopped: the first statement of
`startPomodoro`, `stopPomodoro` and `startBreak`. -/
def stopRegistered (timers : Heap Timer) (active : GoMap Ptr) (userID : GoString) : Heap Timer :=
  match active userID with
  | some timer => stopTimer timers timer
  | none => timers

/-- The statistics record after one completed work session. -/
def bumpStats (s : PomodoroStats) : PomodoroStats :=
  { s with TotalSessions := s.TotalSessions + 1, CompletedToday := s.CompletedToday + 1,
           TotalFocusTime := s.TotalFocusTime + 25 }

/-- The statistics `GetPomodoroStats` creates for a user without a stored record. -/
def zeroStats (userID : GoString) : PomodoroStats :=
  { UserID := userID, TotalSessions := 0, CompletedToday := 0, TotalFocusTime := 0,
    CurrentStreak := 0 }

/-- The event is the run of the callback of an expired work timer of `userID` (the
transition `workExpired`). -/
def isWorkExpiry (w : World) (userID : GoString) : Event → Bool
  | .callbackRuns t _ =>
    decide ((w.timers.obj t).state = .expired) &&
      (match (w.timers.obj t).callback with
        | .work v _ => decide (v = userID)
        | .rest _ => false)
  | _ => false

/-- The user an event is issued for; the expiry of a timer and the run of its callback
are issued for the user whose callback the timer carries. -/
def issuer (w : World) : Event → GoString
  | .registerUser _ _ u _ => u
  | .startPomodoro u _ => u
  | .stopPomodoro u _ => u
  | .startBreak u => u
  | .timerExpires t => (w.timers.obj t).callback.userID
  | .callbackRuns t _ => (w.timers.obj t).callback.userID
  | .addTask _ u _ => u
  | .deleteTask _ u => u
  | .completeTask _ u => u
  | .completeTaskByID u _ => u
  | .deleteTaskByID u _ => u
  | .addGoal _ u _ _ => u
  | .deleteGoal _ u => u

/-- Every registered timer carries the callback of the user it is registered for. -/
def OwnersOK (timers : Heap Timer) (active : GoMap Ptr) : Prop :=
  ∀ k t, active k = some t → (timers.obj t).callback.userID = k

/-- The timer registered for a user, dereferenced. -/
def registeredTimer (w : World) (userID : GoString) : Option Timer :=
  (w.h.activeTimers userID).map w.timers.obj

/-- Every pointer a single-valued map holds is allocated and is filed under the user ID
its object carries. -/
def KeysOK {α : Type} (m : GoMap Ptr) (hp : Heap α) (uid : α → GoString) : Prop :=
  ∀ k p, m k = some p → p < hp.next ∧ uid (hp.obj p) = k

/-- Every list a slice-valued map holds is free of repeated pointers, and each pointer
in it is allocated and filed under the user ID its object carries. -/
def ListsOK {α : Type} (m : GoMap (List Ptr)) (hp : Heap α) (uid : α → GoString) : Prop :=
  ∀ k l, m k = some l → l.Nodup ∧ ∀ p ∈ l, p < hp.next ∧ uid (hp.obj p) = k

/-- Every registered timer has been created. -/
def RegistryOK (timers : Heap Timer) (active : GoMap Ptr) : Prop :=
  ∀ u t, active u = some t → t < timers.next

/-- The invariant of the states the engine can reach. -/
structure WF (w : World) : Prop where
  users : KeysOK w.h.storage.users w.mem.users User.MAXUserID
  stats : KeysOK w.h.storage.pomodoroStats w.mem.stats PomodoroStats.UserID
  tasks : ListsOK w.h.storage.tasks w.mem.tasks Task.UserID
  goals : ListsOK w.h.storage.goals w.mem.goals Goal.UserID
  sessions : ListsOK w.h.storage.pomodoroSessions w.mem.sessions PomodoroSession.UserID
  registry : RegistryOK w.timers w.h.activeTimers

/-! ## Basic facts about maps and heaps -/

@[simp] theorem GoMap.empty_apply {β : Type} (k : GoString) : (GoMap.empty : GoMap β) k = none := rfl

@[simp] theorem GoMap.set_same {β : Type} (m : GoMap β) (k : GoString) (v : β) :
    m.set k v k = some v := by simp [GoMap.set]

theorem GoMap.set_other {β : Type} (m : GoMap β) (k k' : GoString) (v : β) (h : k' ≠ k) :
    m.set k v k' = m k' := by simp [GoMap.set, h]

theorem GoMap.set_apply {β : Type} (m : GoMap β) (k k' : GoString) (v : β) :
    m.set k v k' = if k' = k then some v else m k' := rfl

theorem GoMap.delete_apply {β : Type} (m : GoMap β) (k k' : GoString) :
    m.delete k k' = if k' = k then none else m k' := rfl

@[simp] theorem Heap.alloc_next {α : Type} (h : Heap α) (v : α) : (h.alloc v).next = h.next + 1 := rfl

theorem Heap.alloc_obj {α : Type} (h : Heap α) (v : α) (p : Ptr) :
    (h.alloc v).obj p = if p = h.next then v else h.obj p := rfl

@[simp] theorem Heap.store_next {α : Type} (h : Heap α) (p : Ptr) (v : α) :
    (h.store p v).next = h.next := rfl

theorem Heap.store_obj {α : Type} (h : Heap α) (p q : Ptr) (v : α) :
    (h.store p v).obj q = if q = p then v else h.obj q := rfl

theorem sliceAt_eq {m : GoMap (List Ptr)} {k : GoString} {l : List Ptr} (h : m k = some l) :
    sliceAt m k = l := by simp [sliceAt, h]

theorem sliceAt_none {m : GoMap (List Ptr)} {k : GoString} (h : m k = none) :
    sliceAt m k = [] := by simp [sliceAt, h]

theorem ListsOK.slice {α : Type} {m : GoMap (List Ptr)} {hp : Heap α} {uid : α → GoString}
    (h : ListsOK m hp uid) (k : GoString) :
    (sliceAt m k).Nodup ∧ ∀ p ∈ sliceAt m k, p < hp.next ∧ uid (hp.obj p) = k := by
  cases hk : m k with
  | none => simp [sliceAt_none hk]
  | some l => rw [sliceAt_eq hk]; exact h k l hk

/-- Appending a freshly allocated object to its owner's list keeps the lists well formed. -/
theorem ListsOK.append_fresh {α : Type} {m : GoMap (List Ptr)} {hp : Heap α}
    {uid : α → GoString} (h : ListsOK m hp uid) (v : α) :
    ListsOK (m.set (uid v) (sliceAt m (uid v) ++ [hp.next])) (hp.alloc v) uid := by
  intro k l hl
  rw [GoMap.set_apply] at hl
  split at hl
  · next hk =>
    subst hk
    injection hl with hl
    subst hl
    obtain ⟨hnd, hall⟩ := h.slice (uid v)
    refine ⟨?_, ?_⟩
    · rw [List.nodup_append]
      refine ⟨hnd, List.nodup_singleton _, ?_⟩
      intro a ha hb
      simp only [List.mem_singleton] at hb
      subst hb
      exact absurd (hall _ ha).1 (lt_irrefl _)
    · intro p hp'
      rw [List.mem_append, List.mem_singleton] at hp'
      rcases hp' with hp' | hp'
      · have := hall p hp'
        refine ⟨Nat.lt_succ_of_lt this.1, ?_⟩
        rw [Heap.alloc_obj, if_neg (Nat.ne_of_lt this.1)]
        exact this.2
      · subst hp'
        simp [Heap.alloc_obj]
  · obtain ⟨hnd, hall⟩ := h k l hl
    refine ⟨hnd, fun p hp' => ?_⟩
    have := hall p hp'
    refine ⟨Nat.lt_succ_of_lt this.1, ?_⟩
    rw [Heap.alloc_obj, if_neg (Nat.ne_of_lt this.1)]
    exact this.2

/-- Allocation alone keeps the lists well formed. -/
theorem ListsOK.alloc_lists {α : Type} {m : GoMap (List Ptr)} {hp : Heap α}
    {uid : α → GoString} (h : ListsOK m hp uid) (v : α) : ListsOK m (hp.alloc v) uid := by
  intro k l hl
  obtain ⟨hnd, hall⟩ := h k l hl
  refine ⟨hnd, fun p hp' => ?_⟩
  have := hall p hp'
  refine ⟨Nat.lt_succ_of_lt this.1, ?_⟩
  rw [Heap.alloc_obj, if_neg (Nat.ne_of_lt this.1)]
  exact this.2

/-- A write that keeps the owner field keeps the lists well formed. -/
theorem ListsOK.store_lists {α : Type} {m : GoMap (List Ptr)} {hp : Heap α}
    {uid : α → GoString} (h : ListsOK m hp uid) (p : Ptr) (v : α)
    (hv : uid v = uid (hp.obj p)) : ListsOK m (hp.store p v) uid := by
  intro k l hl
  obtain ⟨hnd, hall⟩ := h k l hl
  refine ⟨hnd, fun q hq => ?_⟩
  have := hall q hq
  refine ⟨this.1, ?_⟩
  rw [Heap.store_obj]
  split
  · next hqp => subst hqp; rw [hv]; exact this.2
  · exact this.2

/-- Replacing a user's list by a sublist of it keeps the lists well formed. -/
theorem ListsOK.set_sublist {α : Type} {m : GoMap (List Ptr)} {hp : Heap α}
    {uid : α → GoString} (h : ListsOK m hp uid) {k : GoString} {l l' : List Ptr}
    (hk : m k = some l) (hs : l'.Sublist l) : ListsOK (m.set k l') hp uid := by
  intro k' l'' hl
  rw [GoMap.set_apply] at hl
  split at hl
  · next hkk =>
    subst hkk
    injection hl with hl
    subst hl
    obtain ⟨hnd, hall⟩ := h _ l hk
    exact ⟨hnd.sublist hs, fun p hp' => hall p (hs.subset hp')⟩
  · exact h k' l'' hl

theorem KeysOK.alloc_keys {α : Type} {m : GoMap Ptr} {hp : Heap α}
    {uid : α → GoString} (h : KeysOK m hp uid) (v : α) : KeysOK m (hp.alloc v) uid := by
  intro k p hk
  have := h k p hk
  refine ⟨Nat.lt_succ_of_lt this.1, ?_⟩
  rw [Heap.alloc_obj, if_neg (Nat.ne_of_lt this.1)]
  exact this.2

theorem KeysOK.store_keys {α : Type} {m : GoMap Ptr} {hp : Heap α}
    {uid : α → GoString} (h : KeysOK m hp uid) (p : Ptr) (v : α)
    (hv : uid v = uid (hp.obj p)) : KeysOK m (hp.store p v) uid := by
  intro k q hk
  have := h k q hk
  refine ⟨this.1, ?_⟩
  rw [Heap.store_obj]
  split
  · next hqp => subst hqp; rw [hv]; exact this.2
  · exact this.2

/-- Filing an allocated object under the user ID it carries keeps the map well formed. -/
theorem KeysOK.set {α : Type} {m : GoMap Ptr} {hp : Heap α}
    {uid : α → GoString} (h : KeysOK m hp uid) (p : Ptr) (hp' : p < hp.next) :
    KeysOK (m.set (uid (hp.obj p)) p) hp uid := by
  intro k q hk
  rw [GoMap.set_apply] at hk
  split at hk
  · next hkk =>
    injection hk with hk
    subst hk
    exact ⟨hp', hkk.symm⟩
  · exact h k q hk

theorem KeysOK.set_key {α : Type} {m : GoMap Ptr} {hp : Heap α}
    {uid : α → GoString} (h : KeysOK m hp uid) (k : GoString) (p : Ptr) (hp' : p < hp.next)
    (hk : uid (hp.obj p) = k) : KeysOK (m.set k p) hp uid := by
  subst hk; exact h.set p hp'

theorem Heap.alloc_obj_next {α : Type} (h : Heap α) (v : α) : (h.alloc v).obj h.next = v := by
  rw [Heap.alloc_obj, if_pos rfl]

theorem savedTask_UserID (t0 : Task) (now : Nat) : (savedTask t0 now).UserID = t0.UserID := by
  unfold savedTask; split <;> rfl

theorem savedGoal_UserID (g0 : Goal) (now : Nat) : (savedGoal g0 now).UserID = g0.UserID := by
  unfold savedGoal; split <;> rfl

theorem SaveTask_mem_tasks (s : MemoryStorage) (mem : Memory) (p : Ptr) (now : Nat) :
    (SaveTask s mem p now).1.2.tasks = mem.tasks.store p (savedTask (mem.tasks.obj p) now) := rfl

theorem SaveTask_tasks (s : MemoryStorage) (mem : Memory) (p : Ptr) (now : Nat) :
    (SaveTask s mem p now).1.1.tasks
      = s.tasks.set (mem.tasks.obj p).UserID (sliceAt s.tasks (mem.tasks.obj p).UserID ++ [p]) := by
  have h := savedTask_UserID (mem.tasks.obj p) now
  unfold savedTask at h
  unfold SaveTask
  dsimp only
  rw [h]

theorem SaveGoal_mem_goals (s : MemoryStorage) (mem : Memory) (p : Ptr) (now : Nat) :
    (SaveGoal s mem p now).1.2.goals = mem.goals.store p (savedGoal (mem.goals.obj p) now) := rfl

theorem SaveGoal_goals (s : MemoryStorage) (mem : Memory) (p : Ptr) (now : Nat) :
    (SaveGoal s mem p now).1.1.goals
      = s.goals.set (mem.goals.obj p).UserID (sliceAt s.goals (mem.goals.obj p).UserID ++ [p]) := by
  have h := savedGoal_UserID (mem.goals.obj p) now
  unfold savedGoal at h
  unfold SaveGoal
  dsimp only
  rw [h]

/-- Allocating an object, writing to it without changing its owner and appending it to
the owner's list keeps the lists well formed. -/
theorem ListsOK.append_saved {α : Type} {m : GoMap (List Ptr)} {hp : Heap α}
    {uid : α → GoString} (h : ListsOK m hp uid) (v v' : α) (k : GoString) (hk : uid v = k)
    (hv : uid v' = k) :
    ListsOK (m.set k (sliceAt m k ++ [hp.next])) ((hp.alloc v).store hp.next v') uid := by
  subst hk
  refine (h.append_fresh v).store_lists _ _ ?_
  rw [Heap.alloc_obj, if_pos rfl, hv]

theorem addTask_tasks {w : World} (h : ListsOK w.h.storage.tasks w.mem.tasks Task.UserID)
    (text u : GoString) (now : Nat) :
    ListsOK (addTask w text u now).2.h.storage.tasks (addTask w text u now).2.mem.tasks
      Task.UserID := by
  unfold addTask
  dsimp only
  repeat' split
  all_goals first
    | exact h
    | exact h.alloc_lists _
    | (rw [SaveTask_tasks, SaveTask_mem_tasks]; simp only [Heap.alloc_obj_next]; exact h.append_saved _ _ _ rfl (savedTask_UserID _ _))

theorem addGoal_goals {w : World} (h : ListsOK w.h.storage.goals w.mem.goals Goal.UserID)
    (text u : GoString) (now d : Nat) :
    ListsOK (addGoal w text u now d).2.h.storage.goals (addGoal w text u now d).2.mem.goals
      Goal.UserID := by
  unfold addGoal
  dsimp only
  repeat' split
  all_goals first
    | exact h
    | exact h.alloc_lists _
    | (rw [SaveGoal_goals, SaveGoal_mem_goals]; simp only [Heap.alloc_obj_next]; exact h.append_saved _ _ _ rfl (savedGoal_UserID _ _))

theorem take_drop_succ_sublist {α : Type} (l : List α) (i : Nat) :
    (l.take i ++ l.drop (i + 1)).Sublist l := by
  rw [← List.eraseIdx_eq_take_drop_succ]
  exact List.eraseIdx_sublist l i

theorem DeleteTask_tasks_ok {s : MemoryStorage} {mem : Memory}
    (h : ListsOK s.tasks mem.tasks Task.UserID) (u id : GoString) :
    ListsOK (DeleteTask s mem u id).1.tasks mem.tasks Task.UserID := by
  unfold DeleteTask
  split
  · exact h
  · next tasks hk =>
    split
    · exact h.set_sublist hk (take_drop_succ_sublist _ _)
    · exact h

theorem deleteTask_tasks {w : World} (h : ListsOK w.h.storage.tasks w.mem.tasks Task.UserID)
    (text u : GoString) :
    ListsOK (deleteTask w text u).2.h.storage.tasks (deleteTask w text u).2.mem.tasks
      Task.UserID := by
  unfold deleteTask
  dsimp only
  repeat' split
  all_goals first
    | exact h
    | exact DeleteTask_tasks_ok h _ _

theorem deleteTaskByID_tasks {w : World} (h : ListsOK w.h.storage.tasks w.mem.tasks Task.UserID)
    (u id : GoString) :
    ListsOK (deleteTaskByID w u id).h.storage.tasks (deleteTaskByID w u id).mem.tasks
      Task.UserID := by
  unfold deleteTaskByID
  dsimp only
  repeat' split
  all_goals first
    | exact h
    | exact DeleteTask_tasks_ok h _ _

theorem completeTask_tasks {w : World} (h : ListsOK w.h.storage.tasks w.mem.tasks Task.UserID)
    (text u : GoString) :
    ListsOK (completeTask w text u).2.h.storage.tasks (completeTask w text u).2.mem.tasks
      Task.UserID := by
  unfold completeTask
  dsimp only
  repeat' split
  all_goals first
    | exact h
    | exact h.store_lists _ _ rfl

theorem completeTaskByID_tasks {w : World}
    (h : ListsOK w.h.storage.tasks w.mem.tasks Task.UserID) (u id : GoString) :
    ListsOK (completeTaskByID w u id).h.storage.tasks (completeTaskByID w u id).mem.tasks
      Task.UserID := by
  unfold completeTaskByID
  dsimp only
  repeat' split
  all_goals first
    | exact h
    | exact h.store_lists _ _ rfl

theorem startPomodoro_sessions {w : World}
    (h : ListsOK w.h.storage.pomodoroSessions w.mem.sessions PomodoroSession.UserID)
    (u : GoString) (now : Nat) :
    ListsOK (startPomodoro w u now).h.storage.pomodoroSessions (startPomodoro w u now).mem.sessions
      PomodoroSession.UserID := by
  unfold startPomodoro SavePomodoroSession
  simp only [Heap.alloc_obj_next]
  exact h.append_fresh
    { ID := itoa now, UserID := u, StartTime := some now, EndTime := none, Duration := 25,
      Completed := false, SessionType := goString "work", Interrupted := false }

theorem stopPomodoro_sessions {w : World}
    (h : ListsOK w.h.storage.pomodoroSessions w.mem.sessions PomodoroSession.UserID)
    (u : GoString) (now : Nat) :
    ListsOK (stopPomodoro w u now).h.storage.pomodoroSessions (stopPomodoro w u now).mem.sessions
      PomodoroSession.UserID := by
  unfold stopPomodoro
  dsimp only
  repeat' split
  all_goals first
    | exact h
    | exact h.store_lists _ _ rfl

theorem completePomodoro_sessions {w : World}
    (h : ListsOK w.h.storage.pomodoroSessions w.mem.sessions PomodoroSession.UserID)
    (u : GoString) (now : Nat) (id : GoString) :
    ListsOK (completePomodoro w u now id).h.storage.pomodoroSessions
      (completePomodoro w u now id).mem.sessions PomodoroSession.UserID := by
  unfold completePomodoro GetPomodoroStats UpdatePomodoroStats
  dsimp only
  repeat' split
  all_goals first
    | exact h
    | exact h.store_lists _ _ rfl

theorem callbackRuns_sessions {w : World}
    (h : ListsOK w.h.storage.pomodoroSessions w.mem.sessions PomodoroSession.UserID)
    (t : Ptr) (now : Nat) :
    ListsOK (callbackRuns w t now).h.storage.pomodoroSessions (callbackRuns w t now).mem.sessions
      PomodoroSession.UserID := by
  unfold callbackRuns
  dsimp only
  split
  · split
    · exact completePomodoro_sessions h _ _ _
    · exact h
  · exact h

theorem completePomodoro_stats {w : World}
    (h : KeysOK w.h.storage.pomodoroStats w.mem.stats PomodoroStats.UserID)
    (u : GoString) (now : Nat) (id : GoString) :
    KeysOK (completePomodoro w u now id).h.storage.pomodoroStats
      (completePomodoro w u now id).mem.stats PomodoroStats.UserID := by
  unfold completePomodoro GetPomodoroStats UpdatePomodoroStats
  dsimp only
  cases hs : w.h.storage.pomodoroStats u with
  | none =>
    dsimp only
    repeat' split
    all_goals
      refine KeysOK.set_key ?_ _ _ (Nat.lt_succ_self _) ?_
      · refine KeysOK.store_keys (h.alloc_keys _) _ _ ?_
        rfl
      · rfl
  | some p =>
    dsimp only
    repeat' split
    all_goals
      refine KeysOK.set_key ?_ _ _ (h u p hs).1 ?_
      · exact h.store_keys _ _ rfl
      · rfl

theorem callbackRuns_stats {w : World}
    (h : KeysOK w.h.storage.pomodoroStats w.mem.stats PomodoroStats.UserID)
    (t : Ptr) (now : Nat) :
    KeysOK (callbackRuns w t now).h.storage.pomodoroStats (callbackRuns w t now).mem.stats
      PomodoroStats.UserID := by
  unfold callbackRuns
  dsimp only
  split
  · split
    · exact completePomodoro_stats h _ _ _
    · exact h
  · exact h

theorem stopTimer_callback (timers : Heap Timer) (t0 t : Ptr) :
    ((stopTimer timers t0).obj t).callback = (timers.obj t).callback := by
  unfold stopTimer
  split
  · rw [Heap.store_obj]
    split
    · next h => subst h; rfl
    · rfl
  · rfl

theorem stopRegistered_callback (timers : Heap Timer) (active : GoMap Ptr) (u : GoString)
    (t : Ptr) :
    ((stopRegistered timers active u).obj t).callback = (timers.obj t).callback := by
  unfold stopRegistered
  split
  · exact stopTimer_callback _ _ _
  · rfl

theorem savedUser_MAXUserID (u0 : User) (now : Nat) : (savedUser u0 now).MAXUserID = u0.MAXUserID := by
  unfold savedUser; split <;> rfl

theorem SaveUser_mem_users (s : MemoryStorage) (mem : Memory) (p : Ptr) (now : Nat) :
    (SaveUser s mem p now).1.2.users = mem.users.store p (savedUser (mem.users.obj p) now) := rfl

theorem SaveUser_users (s : MemoryStorage) (mem : Memory) (p : Ptr) (now : Nat) :
    (SaveUser s mem p now).1.1.users = s.users.set (mem.users.obj p).MAXUserID p := by
  have h := savedUser_MAXUserID (mem.users.obj p) now
  unfold savedUser at h
  unfold SaveUser
  dsimp only
  rw [h]
  split <;> rfl

theorem registerUser_users {w : World} (h : KeysOK w.h.storage.users w.mem.users User.MAXUserID)
    (f n u : GoString) (now : Nat) :
    KeysOK (registerUser w f n u now).h.storage.users (registerUser w f n u now).mem.users
      User.MAXUserID := by
  unfold registerUser GetUser
  cases hu : w.h.storage.users u with
  | none =>
    dsimp only
    rw [SaveUser_users, SaveUser_mem_users]
    refine KeysOK.set_key ?_ _ _ ?_ ?_
    · refine KeysOK.store_keys (h.alloc_keys _) _ _ ?_
      rw [savedUser_MAXUserID]
    · exact Nat.lt_succ_self _
    · rw [Heap.store_obj, if_pos rfl, savedUser_MAXUserID]
  | some p =>
    simp only [UpdateUserActivity, hu]
    exact KeysOK.store_keys (h.alloc_keys _) _ _ rfl


theorem stopTimer_next (timers : Heap Timer) (t : Ptr) : (stopTimer timers t).next = timers.next := by
  unfold stopTimer; split <;> rfl

theorem stopRegistered_next (timers : Heap Timer) (active : GoMap Ptr) (u : GoString) :
    (stopRegistered timers active u).next = timers.next := by
  unfold stopRegistered
  split
  · exact stopTimer_next _ _
  · rfl

theorem RegistryOK.restart_registry {timers : Heap Timer} {active : GoMap Ptr}
    (h : RegistryOK timers active) (u : GoString) (v : Timer) :
    RegistryOK ((stopRegistered timers active u).alloc v)
      (active.set u (stopRegistered timers active u).next) := by
  intro k t hk
  rw [Heap.alloc_next, stopRegistered_next]
  rw [GoMap.set_apply] at hk
  split at hk
  · injection hk with hk
    rw [← hk, stopRegistered_next]
    exact Nat.lt_succ_self _
  · exact Nat.lt_succ_of_lt (h k t hk)

theorem RegistryOK.stop_registry {timers : Heap Timer} {active : GoMap Ptr}
    (h : RegistryOK timers active) (u : GoString) :
    RegistryOK (stopRegistered timers active u)
      (match active u with
        | some _ => active.delete u
        | none => active) := by
  intro k t hk
  rw [stopRegistered_next]
  cases hau : active u with
  | none => rw [hau] at hk; exact h k t hk
  | some t1 =>
    rw [hau] at hk
    change active.delete u k = some t at hk
    rw [GoMap.delete_apply] at hk
    split at hk
    · exact absurd hk (fun h => nomatch h)
    · exact h k t hk

theorem RegistryOK.fire_registry {timers : Heap Timer} {active : GoMap Ptr}
    (h : RegistryOK timers active) (t0 : Ptr) (v : Timer) (k : GoString) :
    RegistryOK (timers.store t0 v) (active.delete k) := by
  intro u t hk
  rw [GoMap.delete_apply] at hk
  split at hk
  · exact absurd hk (fun h => nomatch h)
  · exact h u t hk

theorem callbackRuns_registry {w : World} (h : RegistryOK w.timers w.h.activeTimers)
    (t : Ptr) (now : Nat) :
    RegistryOK (callbackRuns w t now).timers (callbackRuns w t now).h.activeTimers := by
  unfold callbackRuns
  dsimp only
  split
  · cases hc : (w.timers.obj t).callback with
    | work u sp => exact h.fire_registry t _ u
    | rest u => exact h.fire_registry t _ u
  · exact h

theorem step_users {w : World} (h : KeysOK w.h.storage.users w.mem.users User.MAXUserID) (e : Event) :
    KeysOK (step w e).h.storage.users (step w e).mem.users User.MAXUserID := by
  cases e with
  | registerUser f n u now =>
    exact registerUser_users h f n u now
  | startPomodoro u now =>
    exact h
  | stopPomodoro u now =>
    simp only [step, stopPomodoro]
    repeat' split
    all_goals exact h
  | startBreak u =>
    exact h
  | timerExpires t =>
    simp only [step, timerExpires]
    repeat' split
    all_goals exact h
  | callbackRuns t now =>
    simp only [step, callbackRuns, completePomodoro, completeBreak, GetPomodoroStats, UpdatePomodoroStats]
    repeat' split
    all_goals exact h
  | addTask text u now =>
    simp only [step, addTask]
    repeat' split
    all_goals exact h
  | deleteTask text u =>
    simp only [step, deleteTask, DeleteTask]
    repeat' split
    all_goals exact h
  | completeTask text u =>
    simp only [step, completeTask]
    repeat' split
    all_goals exact h
  | completeTaskByID u id =>
    simp only [step, completeTaskByID]
    repeat' split
    all_goals exact h
  | deleteTaskByID u id =>
    simp only [step, deleteTaskByID, DeleteTask]
    repeat' split
    all_goals exact h
  | addGoal text u now d =>
    simp only [step, addGoal]
    repeat' split
    all_goals exact h
  | deleteGoal text u =>
    simp only [step, deleteGoal]
    repeat' split
    all_goals exact h

theorem step_stats {w : World} (h : KeysOK w.h.storage.pomodoroStats w.mem.stats PomodoroStats.UserID) (e : Event) :
    KeysOK (step w e).h.storage.pomodoroStats (step w e).mem.stats PomodoroStats.UserID := by
  cases e with
  | registerUser f n u now =>
    simp only [step, registerUser, GetUser, SaveUser, UpdateUserActivity]
    repeat' split
    all_goals exact h
  | startPomodoro u now =>
    exact h
  | stopPomodoro u now =>
    simp only [step, stopPomodoro]
    repeat' split
    all_goals exact h
  | startBreak u =>
    exact h
  | timerExpires t =>
    simp only [step, timerExpires]
    repeat' split
    all_goals exact h
  | callbackRuns t now =>
    exact callbackRuns_stats h t now
  | addTask text u now =>
    simp only [step, addTask]
    repeat' split
    all_goals exact h
  | deleteTask text u =>
    simp only [step, deleteTask, DeleteTask]
    repeat' split
    all_goals exact h
  | completeTask text u =>
    simp only [step, completeTask]
    repeat' split
    all_goals exact h
  | completeTaskByID u id =>
    simp only [step, completeTaskByID]
    repeat' split
    all_goals exact h
  | deleteTaskByID u id =>
    simp only [step, deleteTaskByID, DeleteTask]
    repeat' split
    all_goals exact h
  | addGoal text u now d =>
    simp only [step, addGoal]
    repeat' split
    all_goals exact h
  | deleteGoal text u =>
    simp only [step, deleteGoal]
    repeat' split
    all_goals exact h

theorem step_tasks {w : World} (h : ListsOK w.h.storage.tasks w.mem.tasks Task.UserID) (e : Event) :
    ListsOK (step w e).h.storage.tasks (step w e).mem.tasks Task.UserID := by
  cases e with
  | registerUser f n u now =>
    simp only [step, registerUser, GetUser, SaveUser, UpdateUserActivity]
    repeat' split
    all_goals exact h
  | startPomodoro u now =>
    exact h
  | stopPomodoro u now =>
    simp only [step, stopPomodoro]
    repeat' split
    all_goals exact h
  | startBreak u =>
    exact h
  | timerExpires t =>
    simp only [step, timerExpires]
    repeat' split
    all_goals exact h
  | callbackRuns t now =>
    simp only [step, callbackRuns, completePomodoro, completeBreak, GetPomodoroStats, UpdatePomodoroStats]
    repeat' split
    all_goals exact h
  | addTask text u now =>
    exact addTask_tasks h text u now
  | deleteTask text u =>
    exact deleteTask_tasks h text u
  | completeTask text u =>
    exact completeTask_tasks h text u
  | completeTaskByID u id =>
    exact completeTaskByID_tasks h u id
  | deleteTaskByID u id =>
    exact deleteTaskByID_tasks h u id
  | addGoal text u now d =>
    simp only [step, addGoal]
    repeat' split
    all_goals exact h
  | deleteGoal text u =>
    simp only [step, deleteGoal]
    repeat' split
    all_goals exact h

theorem step_goals {w : World} (h : ListsOK w.h.storage.goals w.mem.goals Goal.UserID) (e : Event) :
    ListsOK (step w e).h.storage.goals (step w e).mem.goals Goal.UserID := by
  cases e with
  | registerUser f n u now =>
    simp only [step, registerUser, GetUser, SaveUser, UpdateUserActivity]
    repeat' split
    all_goals exact h
  | startPomodoro u now =>
    exact h
  | stopPomodoro u now =>
    simp only [step, stopPomodoro]
    repeat' split
    all_goals exact h
  | startBreak u =>
    exact h
  | timerExpires t =>
    simp only [step, timerExpires]
    repeat' split
    all_goals exact h
  | callbackRuns t now =>
    simp only [step, callbackRuns, completePomodoro, completeBreak, GetPomodoroStats, UpdatePomodoroStats]
    repeat' split
    all_goals exact h
  | addTask text u now =>
    simp only [step, addTask]
    repeat' split
    all_goals exact h
  | deleteTask text u =>
    simp only [step, deleteTask, DeleteTask]
    repeat' split
    all_goals exact h
  | completeTask text u =>
    simp only [step, completeTask]
    repeat' split
    all_goals exact h
  | completeTaskByID u id =>
    simp only [step, completeTaskByID]
    repeat' split
    all_goals exact h
  | deleteTaskByID u id =>
    simp only [step, deleteTaskByID, DeleteTask]
    repeat' split
    all_goals exact h
  | addGoal text u now d =>
    exact addGoal_goals h text u now d
  | deleteGoal text u =>
    simp only [step, deleteGoal]
    repeat' split
    all_goals exact h

theorem step_sessions {w : World} (h : ListsOK w.h.storage.pomodoroSessions w.mem.sessions PomodoroSession.UserID) (e : Event) :
    ListsOK (step w e).h.storage.pomodoroSessions (step w e).mem.sessions PomodoroSession.UserID := by
  cases e with
  | registerUser f n u now =>
    simp only [step, registerUser, GetUser, SaveUser, UpdateUserActivity]
    repeat' split
    all_goals exact h
  | startPomodoro u now =>
    exact startPomodoro_sessions h u now
  | stopPomodoro u now =>
    exact stopPomodoro_sessions h u now
  | startBreak u =>
    exact h
  | timerExpires t =>
    simp only [step, timerExpires]
    repeat' split
    all_goals exact h
  | callbackRuns t now =>
    exact callbackRuns_sessions h t now
  | addTask text u now =>
    simp only [step, addTask]
    repeat' split
    all_goals exact h
  | deleteTask text u =>
    simp only [step, deleteTask, DeleteTask]
    repeat' split
    all_goals exact h
  | completeTask text u =>
    simp only [step, completeTask]
    repeat' split
    all_goals exact h
  | completeTaskByID u id =>
    simp only [step, completeTaskByID]
    repeat' split
    all_goals exact h
  | deleteTaskByID u id =>
    simp only [step, deleteTaskByID, DeleteTask]
    repeat' split
    all_goals exact h
  | addGoal text u now d =>
    simp only [step, addGoal]
    repeat' split
    all_goals exact h
  | deleteGoal text u =>
    simp only [step, deleteGoal]
    repeat' split
    all_goals exact h

theorem step_registry {w : World} (h : RegistryOK w.timers w.h.activeTimers) (e : Event) :
    RegistryOK (step w e).timers (step w e).h.activeTimers := by
  cases e with
  | registerUser f n u now =>
    simp only [step, registerUser, GetUser, SaveUser, UpdateUserActivity]
    repeat' split
    all_goals exact h
  | startPomodoro u now =>
    exact h.restart_registry u _
  | stopPomodoro u now =>
    exact h.stop_registry u
  | startBreak u =>
    exact h.restart_registry u _
  | timerExpires t =>
    simp only [step, timerExpires]
    repeat' split
    all_goals exact h
  | callbackRuns t now =>
    exact callbackRuns_registry h t now
  | addTask text u now =>
    simp only [step, addTask]
    repeat' split
    all_goals exact h
  | deleteTask text u =>
    simp only [step, deleteTask, DeleteTask]
    repeat' split
    all_goals exact h
  | completeTask text u =>
    simp only [step, completeTask]
    repeat' split
    all_goals exact h
  | completeTaskByID u id =>
    simp only [step, completeTaskByID]
    repeat' split
    all_goals exact h
  | deleteTaskByID u id =>
    simp only [step, deleteTaskByID, DeleteTask]
    repeat' split
    all_goals exact h
  | addGoal text u now d =>
    simp only [step, addGoal]
    repeat' split
    all_goals exact h
  | deleteGoal text u =>
    simp only [step, deleteGoal]
    repeat' split
    all_goals exact h

/-- Every event keeps the state well formed. -/
theorem step_WF {w : World} (h : WF w) (e : Event) : WF (step w e) :=
  ⟨step_users h.users e, step_stats h.stats e, step_tasks h.tasks e, step_goals h.goals e,
    step_sessions h.sessions e, step_registry h.registry e⟩

theorem New_WF : WF New := by
  constructor <;> intro k
  all_goals
    intro p hp
    exact absurd hp (by simp [New, NewMemoryStorage])

theorem runFrom_WF {w : World} (h : WF w) (es : List Event) : WF (runFrom w es) := by
  induction es generalizing w with
  | nil => exact h
  | cons e es ih => exact ih (step_WF h e)

/-- Every reachable state is well formed. -/
theorem run_WF (es : List Event) : WF (run es) := runFrom_WF New_WF es

theorem statsOf_eq (w : World) (u : GoString) :
    statsOf w u = match w.h.storage.pomodoroStats u with
      | none => zeroStats u
      | some p => w.mem.stats.obj p := by
  unfold statsOf GetPomodoroStats
  cases h : w.h.storage.pomodoroStats u with
  | none => simp [Heap.alloc_obj_next, zeroStats]
  | some p => rfl

theorem statsOf_congr {w w' : World} (h1 : w'.h.storage.pomodoroStats = w.h.storage.pomodoroStats)
    (h2 : w'.mem.stats = w.mem.stats) (u : GoString) : statsOf w' u = statsOf w u := by
  rw [statsOf_eq, statsOf_eq, h1, h2]

theorem completePomodoro_mem_stats (w : World) (v : GoString) (now : Nat) (id : GoString) :
    (completePomodoro w v now id).mem.stats =
      match w.h.storage.pomodoroStats v with
      | none => (w.mem.stats.alloc (zeroStats v)).store w.mem.stats.next (bumpStats (zeroStats v))
      | some p => w.mem.stats.store p (bumpStats (w.mem.stats.obj p)) := by
  unfold completePomodoro GetPomodoroStats UpdatePomodoroStats
  dsimp only
  cases hs : w.h.storage.pomodoroStats v with
  | none =>
    dsimp only
    split <;> simp only [Heap.alloc_obj_next] <;> rfl
  | some p =>
    dsimp only
    split <;> rfl

theorem completePomodoro_pomodoroStats (w : World) (v : GoString) (now : Nat) (id : GoString) :
    (completePomodoro w v now id).h.storage.pomodoroStats =
      match w.h.storage.pomodoroStats v with
      | none => w.h.storage.pomodoroStats.set v w.mem.stats.next
      | some p => w.h.storage.pomodoroStats.set (w.mem.stats.obj p).UserID p := by
  unfold completePomodoro GetPomodoroStats UpdatePomodoroStats
  dsimp only
  cases hs : w.h.storage.pomodoroStats v with
  | none =>
    dsimp only
    split <;> simp only [Heap.alloc_obj_next, Heap.store_obj, if_pos]
  | some p =>
    dsimp only
    split <;> simp only [Heap.store_obj, if_pos]

theorem completePomodoro_statsOf {w : World}
    (h : KeysOK w.h.storage.pomodoroStats w.mem.stats PomodoroStats.UserID)
    (v : GoString) (now : Nat) (id : GoString) (u : GoString) :
    statsOf (completePomodoro w v now id) u
      = if u = v then bumpStats (statsOf w v) else statsOf w u := by
  rw [statsOf_eq, statsOf_eq w v, statsOf_eq w u, completePomodoro_mem_stats,
    completePomodoro_pomodoroStats]
  by_cases huv : u = v
  · subst huv
    rw [if_pos rfl]
    cases hs : w.h.storage.pomodoroStats u with
    | none =>
      dsimp only
      rw [GoMap.set_same]
      dsimp only
      rw [Heap.store_obj, if_pos rfl]
    | some p =>
      dsimp only
      rw [(h u p hs).2, GoMap.set_same]
      dsimp only
      rw [Heap.store_obj, if_pos rfl]
  · rw [if_neg huv]
    cases hs : w.h.storage.pomodoroStats v with
    | none =>
      dsimp only
      rw [GoMap.set_other _ _ _ _ huv]
      cases hu : w.h.storage.pomodoroStats u with
      | none => rfl
      | some q =>
        dsimp only
        have hq := (h u q hu).1
        rw [Heap.store_obj, if_neg (Nat.ne_of_lt hq), Heap.alloc_obj, if_neg (Nat.ne_of_lt hq)]
    | some p =>
      dsimp only
      have hp := (h v p hs).2
      rw [hp, GoMap.set_other _ _ _ _ huv]
      cases hu : w.h.storage.pomodoroStats u with
      | none => rfl
      | some q =>
        dsimp only
        have hq := (h u q hu).2
        have hne : q ≠ p := by
          intro heq
          subst heq
          exact huv (hq.symm.trans hp)
        rw [Heap.store_obj, if_neg hne]

theorem completePomodoro_statsOf_of_eq (w w1 : World)
    (h : KeysOK w.h.storage.pomodoroStats w.mem.stats PomodoroStats.UserID)
    (h1 : w1.h.storage.pomodoroStats = w.h.storage.pomodoroStats)
    (h2 : w1.mem.stats = w.mem.stats)
    (v : GoString) (now : Nat) (id : GoString) (u : GoString) :
    statsOf (completePomodoro w1 v now id) u
      = if u = v then bumpStats (statsOf w v) else statsOf w u := by
  have hw : KeysOK w1.h.storage.pomodoroStats w1.mem.stats PomodoroStats.UserID := by
    rw [h1, h2]; exact h
  rw [completePomodoro_statsOf hw, statsOf_congr h1 h2, statsOf_congr h1 h2]

theorem callbackRuns_statsOf {w : World}
    (h : KeysOK w.h.storage.pomodoroStats w.mem.stats PomodoroStats.UserID)
    (t : Ptr) (now : Nat) (u : GoString) :
    statsOf (callbackRuns w t now) u
      = if isWorkExpiry w u (.callbackRuns t now) = true then bumpStats (statsOf w u)
        else statsOf w u := by
  unfold callbackRuns isWorkExpiry
  dsimp only
  by_cases harmed : (w.timers.obj t).state = .expired
  · rw [if_pos harmed]
    cases hc : (w.timers.obj t).callback with
    | work v sp =>
      dsimp only
      refine (completePomodoro_statsOf_of_eq w _ h ?_ ?_ v now _ u).trans ?_
      · rfl
      · rfl
      · by_cases hvu : v = u
        · subst hvu
          simp [harmed]
        · have : ¬ u = v := fun h => hvu h.symm
          simp [harmed, hvu, this]
    | rest v =>
      simp [harmed]
      exact statsOf_congr rfl rfl _
  · rw [if_neg harmed]
    simp [harmed]

/-- Events other than the run of a timer callback leave the statistics map and records
alone. -/
theorem step_stats_frame (w : World) (e : Event) (he : ∀ t now, e ≠ .callbackRuns t now) :
    (step w e).h.storage.pomodoroStats = w.h.storage.pomodoroStats ∧
      (step w e).mem.stats = w.mem.stats := by
  cases e with
  | registerUser f n u now =>
    refine ⟨?_, ?_⟩
    all_goals simp only [step, registerUser, GetUser, SaveUser, UpdateUserActivity]
    all_goals repeat' split
    all_goals rfl
  | startPomodoro u now =>
    exact ⟨rfl, rfl⟩
  | stopPomodoro u now =>
    refine ⟨?_, ?_⟩
    all_goals simp only [step, stopPomodoro]
    all_goals repeat' split
    all_goals rfl
  | startBreak u =>
    exact ⟨rfl, rfl⟩
  | timerExpires t =>
    refine ⟨?_, ?_⟩
    all_goals simp only [step, timerExpires]
    all_goals repeat' split
    all_goals rfl
  | callbackRuns t now =>
    exact absurd rfl (he t now)
  | addTask text u now =>
    refine ⟨?_, ?_⟩
    all_goals simp only [step, addTask]
    all_goals repeat' split
    all_goals rfl
  | deleteTask text u =>
    refine ⟨?_, ?_⟩
    all_goals simp only [step, deleteTask, DeleteTask]
    all_goals repeat' split
    all_goals rfl
  | completeTask text u =>
    refine ⟨?_, ?_⟩
    all_goals simp only [step, completeTask]
    all_goals repeat' split
    all_goals rfl
  | completeTaskByID u id =>
    refine ⟨?_, ?_⟩
    all_goals simp only [step, completeTaskByID]
    all_goals repeat' split
    all_goals rfl
  | deleteTaskByID u id =>
    refine ⟨?_, ?_⟩
    all_goals simp only [step, deleteTaskByID, DeleteTask]
    all_goals repeat' split
    all_goals rfl
  | addGoal text u now d =>
    refine ⟨?_, ?_⟩
    all_goals simp only [step, addGoal]
    all_goals repeat' split
    all_goals rfl
  | deleteGoal text u =>
    refine ⟨?_, ?_⟩
    all_goals simp only [step, deleteGoal]
    all_goals repeat' split
    all_goals rfl

/-- The statistics of a user after one event. -/
theorem step_statsOf {w : World} (h : WF w) (e : Event) (u : GoString) :
    statsOf (step w e) u
      = if isWorkExpiry w u e = true then bumpStats (statsOf w u) else statsOf w u := by
  by_cases he : ∃ t now, e = .callbackRuns t now
  · obtain ⟨t, now, rfl⟩ := he
    exact callbackRuns_statsOf h.stats t now u
  · have he' : ∀ t now, e ≠ .callbackRuns t now := fun t now h => he ⟨t, now, h⟩
    obtain ⟨h1, h2⟩ := step_stats_frame w e he'
    have hno : isWorkExpiry w u e = false := by
      cases e with
      | callbackRuns t now => exact absurd rfl (he' t now)
      | _ => rfl
    rw [hno, statsOf_congr h1 h2]
    rfl

theorem map_store_not_mem {α : Type} (hp : Heap α) (l : List Ptr) (p : Ptr) (v : α)
    (h : p ∉ l) : l.map (hp.store p v).obj = l.map hp.obj := by
  apply List.map_congr_left
  intro q hq
  rw [Heap.store_obj, if_neg]
  intro heq
  subst heq
  exact h hq

theorem map_alloc_of_lt {α : Type} (hp : Heap α) (l : List Ptr) (v : α)
    (h : ∀ q ∈ l, q < hp.next) : l.map (hp.alloc v).obj = l.map hp.obj := by
  apply List.map_congr_left
  intro q hq
  rw [Heap.alloc_obj, if_neg (Nat.ne_of_lt (h q hq))]

theorem sessionsOf_eq (w : World) (u : GoString) :
    sessionsOf w u = (sliceAt w.h.storage.pomodoroSessions u).map w.mem.sessions.obj := by
  unfold sessionsOf GetUserPomodoroSessions sliceAt
  cases w.h.storage.pomodoroSessions u <;> rfl

/-- The sessions of another user are untouched by `startPomodoro`. -/
theorem startPomodoro_sessionsOf_other {w : World} (h : WF w) (u v : GoString) (now : Nat)
    (huv : u ≠ v) : sessionsOf (startPomodoro w v now) u = sessionsOf w u := by
  rw [sessionsOf_eq, sessionsOf_eq]
  unfold startPomodoro SavePomodoroSession
  simp only [Heap.alloc_obj_next]
  have : sliceAt (w.h.storage.pomodoroSessions.set v
      (sliceAt w.h.storage.pomodoroSessions v ++ [w.mem.sessions.next])) u
      = sliceAt w.h.storage.pomodoroSessions u := by
    unfold sliceAt
    rw [GoMap.set_other _ _ _ _ huv]
  rw [this, map_alloc_of_lt _ _ _ (fun q hq => ((h.sessions.slice u).2 q hq).1)]

/-- The sessions of another user are untouched by `stopPomodoro`. -/
theorem stopPomodoro_sessionsOf_other {w : World} (h : WF w) (u v : GoString) (now : Nat)
    (huv : u ≠ v) : sessionsOf (stopPomodoro w v now) u = sessionsOf w u := by
  rw [sessionsOf_eq, sessionsOf_eq]
  have hslice : sliceAt (stopPomodoro w v now).h.storage.pomodoroSessions u
      = sliceAt w.h.storage.pomodoroSessions u := rfl
  rw [hslice]
  have hget : (GetUserPomodoroSessions w.h.storage v).1 = sliceAt w.h.storage.pomodoroSessions v := by
    unfold GetUserPomodoroSessions sliceAt
    cases w.h.storage.pomodoroSessions v <;> rfl
  unfold stopPomodoro
  dsimp only
  rw [hget]
  split
  · next hpos =>
    split
    · apply map_store_not_mem
      intro hmem
      have hu := ((h.sessions.slice u).2 _ hmem).2
      have hmem' : (sliceAt w.h.storage.pomodoroSessions v).getD
          ((sliceAt w.h.storage.pomodoroSessions v).length - 1) 0
          ∈ sliceAt w.h.storage.pomodoroSessions v := by
        rw [List.getD_eq_getElem _ _ (Nat.sub_lt hpos Nat.one_pos)]
        exact List.getElem_mem _
      have hv := ((h.sessions.slice v).2 _ hmem').2
      exact huv (hu.symm.trans hv)
    · rfl
  · rfl

/-- Events other than `startPomodoro`, `stopPomodoro` and the run of a timer callback leave
the session lists and records alone. -/
theorem step_sessions_frame (w : World) (e : Event)
    (h1 : ∀ u now, e ≠ .startPomodoro u now) (h2 : ∀ u now, e ≠ .stopPomodoro u now)
    (h3 : ∀ t now, e ≠ .callbackRuns t now) :
    (step w e).h.storage.pomodoroSessions = w.h.storage.pomodoroSessions ∧
      (step w e).mem.sessions = w.mem.sessions := by
  cases e with
  | registerUser f n u now =>
    refine ⟨?_, ?_⟩
    all_goals simp only [step, registerUser, GetUser, SaveUser, UpdateUserActivity]
    all_goals repeat' split
    all_goals rfl
  | startPomodoro u now =>
    exact absurd rfl (h1 u now)
  | stopPomodoro u now =>
    exact absurd rfl (h2 u now)
  | startBreak u =>
    exact ⟨rfl, rfl⟩
  | timerExpires t =>
    refine ⟨?_, ?_⟩
    all_goals simp only [step, timerExpires]
    all_goals repeat' split
    all_goals rfl
  | callbackRuns t now =>
    exact absurd rfl (h3 t now)
  | addTask text u now =>
    refine ⟨?_, ?_⟩
    all_goals simp only [step, addTask]
    all_goals repeat' split
    all_goals rfl
  | deleteTask text u =>
    refine ⟨?_, ?_⟩
    all_goals simp only [step, deleteTask, DeleteTask]
    all_goals repeat' split
    all_goals rfl
  | completeTask text u =>
    refine ⟨?_, ?_⟩
    all_goals simp only [step, completeTask]
    all_goals repeat' split
    all_goals rfl
  | completeTaskByID u id =>
    refine ⟨?_, ?_⟩
    all_goals simp only [step, completeTaskByID]
    all_goals repeat' split
    all_goals rfl
  | deleteTaskByID u id =>
    refine ⟨?_, ?_⟩
    all_goals simp only [step, deleteTaskByID, DeleteTask]
    all_goals repeat' split
    all_goals rfl
  | addGoal text u now d =>
    refine ⟨?_, ?_⟩
    all_goals simp only [step, addGoal]
    all_goals repeat' split
    all_goals rfl
  | deleteGoal text u =>
    refine ⟨?_, ?_⟩
    all_goals simp only [step, deleteGoal]
    all_goals repeat' split
    all_goals rfl

theorem sessionsOf_congr {w w' : World}
    (h1 : w'.h.storage.pomodoroSessions = w.h.storage.pomodoroSessions)
    (h2 : w'.mem.sessions = w.mem.sessions) (u : GoString) :
    sessionsOf w' u = sessionsOf w u := by
  rw [sessionsOf_eq, sessionsOf_eq, h1, h2]

/-- C6 (failing run): user 7 starts at second 100 and stops at 160; the session is
interrupted with end time 160.  A second stop at 220 writes the end time again. -/
theorem C6_second_stop_rewrites_end_time :
    (sessionsOf (run [.startPomodoro (goString "7") 100, .stopPomodoro (goString "7") 160])
        (goString "7")).map (fun s => (s.Interrupted, s.Completed, s.EndTime))
      = [(true, false, some 160)] ∧
    (sessionsOf (run [.startPomodoro (goString "7") 100, .stopPomodoro (goString "7") 160,
        .stopPomodoro (goString "7") 220]) (goString "7")).map
      (fun s => (s.Interrupted, s.Completed, s.EndTime))
      = [(true, false, some 220)] := by
  decide

/-- C7 (failing run): user 7 adds three tasks, the first two within Unix second 100, so
both get the ID "100".  The delete command with number 2 reports the second task as
deleted, but `DeleteTask` removes the first task with that ID: the list loses its first
element, not its second. -/
theorem C7_delete_removes_other_task :
    (tasksOf (run [.addTask (goString "добавить задачу a") (goString "7") 100,
        .addTask (goString "добавить задачу b") (goString "7") 100,
        .addTask (goString "добавить задачу c") (goString "7") 101]) (goString "7")).map
      (fun t => (t.ID, t.Text))
      = [(itoa 100, [0x83, 0x20, 0x61]), (itoa 100, [0x83, 0x20, 0x62]),
         (itoa 101, [0x83, 0x20, 0x63])] ∧
    numberFromParts 3 (Fields (goString "удалить задачу 2")) = 2 ∧
    (deleteTask (run [.addTask (goString "добавить задачу a") (goString "7") 100,
        .addTask (goString "добавить задачу b") (goString "7") 100,
        .addTask (goString "добавить задачу c") (goString "7") 101])
      (goString "удалить задачу 2") (goString "7")).1
      = goString "✅ Задача удалена: \"" ++ [0x83, 0x20, 0x62] ++ goString "\"" ∧
    (tasksOf (run [.addTask (goString "добавить задачу a") (goString "7") 100,
        .addTask (goString "добавить задачу b") (goString "7") 100,
        .addTask (goString "добавить задачу c") (goString "7") 101,
        .deleteTask (goString "удалить задачу 2") (goString "7")]) (goString "7")).map
      (fun t => t.Text)
      = [[0x83, 0x20, 0x62], [0x83, 0x20, 0x63]] := by
  decide

/-- C9 (counterexample): user 7 has two tasks and sends "удалить задачу 5 1".  The first
integer token is 5, outside 1..2, yet the command is not rejected: the loop goes on to
the token 1 and the first task is deleted.  The complete command behaves alike. -/
theorem C9_counterexample :
    (tasksOf (run [.addTask (goString "добавить задачу a") (goString "7") 100,
        .addTask (goString "добавить задачу b") (goString "7") 101]) (goString "7")).length = 2 ∧
    ((Fields (goString "удалить задачу 5 1")).filterMap Atoi).head? = some 5 ∧
    (tasksOf (deleteTask (run [.addTask (goString "добавить задачу a") (goString "7") 100,
        .addTask (goString "добавить задачу b") (goString "7") 101])
      (goString "удалить задачу 5 1") (goString "7")).2 (goString "7")).map (fun t => t.Text)
      = [[0x83, 0x20, 0x62]] ∧
    (deleteTask (run [.addTask (goString "добавить задачу a") (goString "7") 100,
        .addTask (goString "добавить задачу b") (goString "7") 101])
      (goString "удалить задачу 5 1") (goString "7")).1
      = goString "✅ Задача удалена: \"" ++ [0x83, 0x20, 0x61] ++ goString "\"" ∧
    ((Fields (goString "выполнить задачу 5 1")).filterMap Atoi).head? = some 5 ∧
    (tasksOf (completeTask (run [.addTask (goString "добавить задачу a") (goString "7") 100,
        .addTask (goString "добавить задачу b") (goString "7") 101])
      (goString "выполнить задачу 5 1") (goString "7")).2 (goString "7")).map
      (fun t => (t.Text, t.Completed))
      = [([0x83, 0x20, 0x61], true), ([0x83, 0x20, 0x62], false)] := by
  decide

theorem numberFromParts_eq_zero (n : Nat) (parts : List GoString)
    (h : ∀ part ∈ parts, ∀ num ∈ Atoi part, ¬ (0 < num ∧ num ≤ (n : Int))) :
    numberFromParts n parts = 0 := by
  induction parts with
  | nil => rfl
  | cons part rest ih =>
    unfold numberFromParts
    have ih' := ih (fun p hp => h p (List.mem_cons_of_mem _ hp))
    cases ha : Atoi part with
    | none => exact ih'
    | some num =>
      dsimp only
      have := h part (List.mem_cons_self _ _) num ha
      rw [if_neg this]
      exact ih'

theorem tasksOf_length (w : World) (u : GoString) :
    (tasksOf w u).length = (GetUserTasks w.h.storage u).1.length := by
  unfold tasksOf
  rw [List.length_map]

/-- C9 (amended): when no whitespace-separated token of the command text is an integer
in `1..n`, where `n` is the number of tasks of the user, `deleteTask` and `completeTask`
answer with a rejection message and leave the whole state, hence the task list, as it
was. -/
theorem C9_no_index_in_range_rejected (w : World) (text u : GoString)
    (h : ∀ part ∈ Fields text, ∀ num ∈ Atoi part,
      ¬ (0 < num ∧ num ≤ ((tasksOf w u).length : Int))) :
    ((deleteTask w text u).2 = w ∧
      ((deleteTask w text u).1 = goString "📝 У тебя пока нет задач для удаления!" ∨
       (deleteTask w text u).1
         = goString "❌ Укажи номер задачи для удаления. Например: \"удалить задачу 1\"")) ∧
    ((completeTask w text u).2 = w ∧
      ((completeTask w text u).1 = goString "📝 У тебя пока нет задач!" ∨
       (completeTask w text u).1
         = goString "❌ Укажи номер задачи для выполнения. Например: \"выполнить задачу 1\"")) := by
  rw [tasksOf_length] at h
  have hz := numberFromParts_eq_zero _ _ h
  constructor
  · unfold deleteTask
    dsimp only
    split
    · exact ⟨rfl, Or.inl rfl⟩
    · exact ⟨rfl, Or.inr rfl⟩
  · unfold completeTask
    dsimp only
    split
    · exact ⟨rfl, Or.inl rfl⟩
    · exact ⟨rfl, Or.inr rfl⟩

/-- Witness for C9: user 7 has two tasks and sends "удалить задачу 5". -/
theorem C9_no_index_in_range_rejected_witness :
    (∀ part ∈ Fields (goString "удалить задачу 5"), ∀ num ∈ Atoi part,
      ¬ (0 < num ∧ num ≤ ((tasksOf (run [.addTask (goString "добавить задачу a") (goString "7") 100,
        .addTask (goString "добавить задачу b") (goString "7") 101]) (goString "7")).length : Int))) ∧
    (deleteTask (run [.addTask (goString "добавить задачу a") (goString "7") 100,
        .addTask (goString "добавить задачу b") (goString "7") 101])
      (goString "удалить задачу 5") (goString "7")).2
      = run [.addTask (goString "добавить задачу a") (goString "7") 100,
        .addTask (goString "добавить задачу b") (goString "7") 101] :=
  ⟨by decide,
    (C9_no_index_in_range_rejected
      (run [.addTask (goString "добавить задачу a") (goString "7") 100,
        .addTask (goString "добавить задачу b") (goString "7") 101])
      (goString "удалить задачу 5") (goString "7") (by decide)).1.1⟩

theorem tasksOf_eq (w : World) (u : GoString) :
    tasksOf w u = (sliceAt w.h.storage.tasks u).map w.mem.tasks.obj := by
  unfold tasksOf GetUserTasks sliceAt
  cases w.h.storage.tasks u <;> rfl

theorem GetUserTasks_eq (s : MemoryStorage) (u : GoString) :
    (GetUserTasks s u).1 = sliceAt s.tasks u := by
  unfold GetUserTasks sliceAt
  cases s.tasks u <;> rfl

/-- Splitting a list of pointers along a splitting of the records they refer to. -/
theorem map_eq_append_cons {α : Type} (f : Ptr → α) (l : List Ptr) (pre post : List α) (t : α)
    (h : l.map f = pre ++ t :: post) :
    ∃ lp p lq, l = lp ++ p :: lq ∧ lp.map f = pre ∧ f p = t ∧ lq.map f = post := by
  obtain ⟨lp, r, hl, h1, h2⟩ := List.map_eq_append_iff.1 h
  obtain ⟨p, lq, hr, h3, h4⟩ := List.map_eq_cons_iff.1 h2
  exact ⟨lp, p, lq, by rw [hl, hr], h1, h3, h4⟩

theorem getD_append_cons (lp lq : List Ptr) (p : Ptr) :
    (lp ++ p :: lq).getD lp.length 0 = p := by
  rw [List.getD_eq_getElem?_getD, List.getElem?_append_right (le_refl _)]
  simp

/-- C8 (completion only sets the flag and persists): in every reachable state, if the
tasks of `u` are `pre ++ t :: post` and the complete command carries the number of `t`
(the number-extracting loop yields `pre.length + 1`), then afterwards `GetUserTasks`
returns `pre ++ t' :: post` where `t'` is `t` with `Completed` set: same length, same
order, every other field and every other task unchanged. -/
theorem C8_complete_sets_flag (es : List Event) (text u : GoString) (pre post : List Task)
    (t : Task) (hl : tasksOf (run es) u = pre ++ t :: post)
    (hnum : numberFromParts (tasksOf (run es) u).length (Fields text)
      = ((pre.length + 1 : Nat) : Int)) :
    tasksOf (completeTask (run es) text u).2 u = pre ++ { t with Completed := true } :: post := by
  have hwf := run_WF es
  generalize run es = w at hl hnum hwf ⊢
  rw [tasksOf_length, GetUserTasks_eq] at hnum
  rw [tasksOf_eq] at hl ⊢
  obtain ⟨lp, p, lq, hlist, h1, h2, h3⟩ := map_eq_append_cons _ _ _ _ _ hl
  have hnd := (hwf.tasks.slice u).1
  rw [hlist] at hnd
  have hp1 : p ∉ lp := by
    intro hmem
    rw [List.nodup_append] at hnd
    exact hnd.2.2 hmem (List.mem_cons_self _ _)
  have hp2 : p ∉ lq := by
    rw [List.nodup_append] at hnd
    exact (List.nodup_cons.1 hnd.2.1).1
  have hlen : lp.length = pre.length := by rw [← h1, List.length_map]
  have hslice : sliceAt (completeTask w text u).2.h.storage.tasks u = lp ++ p :: lq := by
    rw [← hlist]
    unfold completeTask
    dsimp only
    repeat' split
    all_goals rfl
  rw [hslice]
  unfold completeTask
  dsimp only
  rw [GetUserTasks_eq, hlist]
  rw [hlist] at hnum
  have hne : ¬ (lp ++ p :: lq).length = 0 := by simp
  rw [if_neg hne, hnum, if_neg (by omega)]
  have hidx : (((pre.length + 1 : Nat) : Int) - 1).toNat = lp.length := by
    rw [hlen]; omega
  dsimp only
  rw [hidx, getD_append_cons, List.map_append, List.map_cons,
    map_store_not_mem _ _ _ _ hp1, map_store_not_mem _ _ _ _ hp2, h1, h3, Heap.store_obj,
    if_pos rfl, h2]

/-- Witness for C8: user 7 has three tasks and sends "выполнить задачу 2". -/
theorem C8_complete_sets_flag_witness :
    tasksOf (run [.addTask (goString "добавить задачу a") (goString "7") 100,
        .addTask (goString "добавить задачу b") (goString "7") 101,
        .addTask (goString "добавить задачу c") (goString "7") 102]) (goString "7")
      = [
          { ID := itoa 100, UserID := goString "7", Text := [0x83, 0x20, 0x61],
            Created := some 100, Deadline := none, Completed := false,
            Priority := goString "medium", Category := goString "personal" }] ++
        ((
          { ID := itoa 101, UserID := goString "7", Text := [0x83, 0x20, 0x62],
            Created := some 101, Deadline := none, Completed := false,
            Priority := goString "medium", Category := goString "personal" } : Task) ::
        [
          { ID := itoa 102, UserID := goString "7", Text := [0x83, 0x20, 0x63],
            Created := some 102, Deadline := none, Completed := false,
            Priority := goString "medium", Category := goString "personal" }]) ∧
    numberFromParts (tasksOf (run [.addTask (goString "добавить задачу a") (goString "7") 100,
        .addTask (goString "добавить задачу b") (goString "7") 101,
        .addTask (goString "добавить задачу c") (goString "7") 102]) (goString "7")).length
        (Fields (goString "выполнить задачу 2")) = (((1 : Nat) + 1 : Nat) : Int) ∧
    tasksOf (completeTask (run [.addTask (goString "добавить задачу a") (goString "7") 100,
        .addTask (goString "добавить задачу b") (goString "7") 101,
        .addTask (goString "добавить задачу c") (goString "7") 102])
        (goString "выполнить задачу 2") (goString "7")).2 (goString "7")
      = [
          { ID := itoa 100, UserID := goString "7", Text := [0x83, 0x20, 0x61],
            Created := some 100, Deadline := none, Completed := false,
            Priority := goString "medium", Category := goString "personal" }] ++
        ((
          { ID := itoa 101, UserID := goString "7", Text := [0x83, 0x20, 0x62],
            Created := some 101, Deadline := none, Completed := true,
            Priority := goString "medium", Category := goString "personal" } : Task) ::
        [
          { ID := itoa 102, UserID := goString "7", Text := [0x83, 0x20, 0x63],
            Created := some 102, Deadline := none, Completed := false,
            Priority := goString "medium", Category := goString "personal" }]) :=
  ⟨by decide, by decide,
    C8_complete_sets_flag
      [.addTask (goString "добавить задачу a") (goString "7") 100,
        .addTask (goString "добавить задачу b") (goString "7") 101,
        .addTask (goString "добавить задачу c") (goString "7") 102]
      (goString "выполнить задачу 2") (goString "7")
      [
          { ID := itoa 100, UserID := goString "7", Text := [0x83, 0x20, 0x61],
            Created := some 100, Deadline := none, Completed := false,
            Priority := goString "medium", Category := goString "personal" }]
      [
          { ID := itoa 102, UserID := goString "7", Text := [0x83, 0x20, 0x63],
            Created := some 102, Deadline := none, Completed := false,
            Priority := goString "medium", Category := goString "personal" }]
      (
          { ID := itoa 101, UserID := goString "7", Text := [0x83, 0x20, 0x62],
            Created := some 101, Deadline := none, Completed := false,
            Priority := goString "medium", Category := goString "personal" })
      (by decide) (by decide)⟩

theorem userOf_eq (w : World) (u : GoString) :
    userOf w u = (w.h.storage.users u).map w.mem.users.obj := by
  unfold userOf GetUser
  cases w.h.storage.users u <;> rfl

/-- The user records after `registerUser`: a new user gets a fresh record stamped with
the clock reading, a known user only a new `LastActivity`, and nobody else changes. -/
theorem registerUser_userOf {w : World} (h : WF w) (f n u : GoString) (now : Nat)
    (v : GoString) :
    userOf (registerUser w f n u now) v =
      if v = u then
        match userOf w u with
        | none => some { ID := u, MAXUserID := u, FirstName := f, Username := n,
                         RegistrationDate := some now, LastActivity := some now }
        | some r => some { r with LastActivity := some now }
      else userOf w v := by
  rw [userOf_eq, userOf_eq w u, userOf_eq w v]
  unfold registerUser GetUser
  cases hu : w.h.storage.users u with
  | none =>
    dsimp only
    rw [SaveUser_users, SaveUser_mem_users]
    simp only [Heap.alloc_obj_next]
    rw [GoMap.set_apply]
    split
    · next hvu =>
      simp only [Option.map_some', Heap.store_obj, if_pos, Option.map_none']
      rfl
    · next hvu =>
      cases hv : w.h.storage.users v with
      | none => rfl
      | some q =>
        have hq := (h.users v q hv).1
        simp only [Option.map_some']
        rw [Heap.store_obj, if_neg (Nat.ne_of_lt hq), Heap.alloc_obj, if_neg (Nat.ne_of_lt hq)]
  | some p =>
    have hp := h.users u p hu
    simp only [UpdateUserActivity, hu]
    split
    · next hvu =>
      subst hvu
      rw [hu]
      simp only [Option.map_some']
      rw [Heap.store_obj, if_pos rfl, Heap.alloc_obj, if_neg (Nat.ne_of_lt hp.1)]
    · next hvu =>
      cases hv : w.h.storage.users v with
      | none => rfl
      | some q =>
        have hq := h.users v q hv
        have hne : q ≠ p := by
          intro heq
          subst heq
          exact hvu (hq.2.symm.trans hp.2)
        simp only [Option.map_some']
        rw [Heap.store_obj, if_neg hne, Heap.alloc_obj, if_neg (Nat.ne_of_lt hq.1)]

theorem userOf_key {w : World} (h : WF w) {k : GoString} {r : User}
    (hr : userOf w k = some r) : r.MAXUserID = k := by
  rw [userOf_eq] at hr
  cases hk : w.h.storage.users k with
  | none => rw [hk] at hr; exact nomatch hr
  | some p =>
    rw [hk] at hr
    simp only [Option.map_some', Option.some.injEq] at hr
    rw [← hr]
    exact (h.users k p hk).2

/-- C10 (idempotent registration): from any reachable state, after `registerUser` is
called twice with the same user ID (at clock readings `now1` and `now2`), one record `r`
is stored under that ID; it is the record present after the first call with
`LastActivity` set to `now2`; its `RegistrationDate` is `now1` if the user was unknown
before the first call and the earlier registration date otherwise; the record is stored
under no other key; and the record of every other user is what it was. -/
theorem C10_idempotent_registration (es : List Event) (f n f2 n2 u : GoString)
    (now1 now2 : Nat) :
    ∃ r : User,
      userOf (registerUser (run es) f n u now1) u = some r ∧
      userOf (registerUser (registerUser (run es) f n u now1) f2 n2 u now2) u
        = some { r with LastActivity := some now2 } ∧
      r.RegistrationDate =
        (match userOf (run es) u with
          | none => some now1
          | some r0 => r0.RegistrationDate) ∧
      (∀ k r', userOf (registerUser (registerUser (run es) f n u now1) f2 n2 u now2) k = some r' →
        r'.MAXUserID = u → k = u) ∧
      (∀ v, v ≠ u →
        userOf (registerUser (registerUser (run es) f n u now1) f2 n2 u now2) v
          = userOf (run es) v) := by
  have h0 := run_WF es
  have h1 : WF (registerUser (run es) f n u now1) := step_WF h0 (.registerUser f n u now1)
  have h2 : WF (registerUser (registerUser (run es) f n u now1) f2 n2 u now2) :=
    step_WF h1 (.registerUser f2 n2 u now2)
  have e1 := registerUser_userOf h0 f n u now1 u
  rw [if_pos rfl] at e1
  have e2 := registerUser_userOf h1 f2 n2 u now2 u
  rw [if_pos rfl] at e2
  have hother : ∀ v, v ≠ u →
      userOf (registerUser (registerUser (run es) f n u now1) f2 n2 u now2) v
        = userOf (run es) v := by
    intro v hv
    rw [registerUser_userOf h1 f2 n2 u now2 v, if_neg hv,
      registerUser_userOf h0 f n u now1 v, if_neg hv]
  have hkey : ∀ k r',
      userOf (registerUser (registerUser (run es) f n u now1) f2 n2 u now2) k = some r' →
      r'.MAXUserID = u → k = u := by
    intro k r' hr hm
    rw [← userOf_key h2 hr, hm]
  cases h : userOf (run es) u with
  | none =>
    rw [h] at e1
    rw [e1] at e2
    exact ⟨_, e1, e2, rfl, hkey, hother⟩
  | some r0 =>
    rw [h] at e1
    rw [e1] at e2
    exact ⟨_, e1, e2, rfl, hkey, hother⟩

theorem numberFromParts_range (n : Nat) (parts : List GoString) :
    numberFromParts n parts = 0 ∨ (0 < numberFromParts n parts ∧ numberFromParts n parts ≤ (n : Int)) := by
  induction parts with
  | nil => exact Or.inl rfl
  | cons part rest ih =>
    unfold numberFromParts
    cases ha : Atoi part with
    | none => exact ih
    | some num =>
      dsimp only
      split
      · next h => exact Or.inr h
      · exact ih

theorem goalsOf_length (w : World) (u : GoString) :
    (goalsOf w u).length = (GetUserGoals w.h.storage u).1.length := by
  unfold goalsOf
  rw [List.length_map]

/-- C16 (deleteGoal never changes the store): for every state, command text and user,
`deleteGoal` returns the state it was given, so the goal list `GetUserGoals` returns is
the same list as before, also when the text carries an in-range number `k` and the
reply reports the `k`-th goal as deleted. -/
theorem C16_deleteGoal_keeps_store (w : World) (text u : GoString) :
    (deleteGoal w text u).2 = w ∧
    goalsOf (deleteGoal w text u).2 u = goalsOf w u ∧
    (∀ k : Nat, 1 ≤ k → numberFromParts (goalsOf w u).length (Fields text) = (k : Int) →
      k ≤ (goalsOf w u).length ∧
      (deleteGoal w text u).1
        = goString "✅ Цель удалена: \"" ++ ((goalsOf w u).getD (k - 1) default).Title
            ++ goString "\"") := by
  have h1 : (deleteGoal w text u).2 = w := by
    unfold deleteGoal
    dsimp only
    repeat' split
    all_goals rfl
  refine ⟨h1, by rw [h1], ?_⟩
  intro k hk hnum
  have hr := numberFromParts_range (goalsOf w u).length (Fields text)
  rw [hnum] at hr
  have hle : k ≤ (goalsOf w u).length := by
    rcases hr with hr | hr
    · omega
    · omega
  refine ⟨hle, ?_⟩
  rw [goalsOf_length] at hnum hle
  unfold deleteGoal
  dsimp only
  have hne : ¬ (GetUserGoals w.h.storage u).1.length = 0 := by omega
  rw [if_neg hne, hnum, if_neg (by omega)]
  have hidx : ((k : Int) - 1).toNat = k - 1 := by omega
  dsimp only
  rw [hidx]
  unfold goalsOf
  rw [List.getD_eq_getElem?_getD, List.getD_eq_getElem?_getD, List.getElem?_map]
  have hlt : k - 1 < (GetUserGoals w.h.storage u).1.length := by omega
  rw [List.getElem?_eq_getElem hlt]
  rfl

/-- C13 (lookups never fail): for every store, heap and user ID, the five read
operations return a nil error; each returns exactly what the map holds for the ID, so for
an ID without data `GetUser` returns nil, the three list operations return the empty
list and `GetPomodoroStats` returns a record of that user with all counters zero.  The
read operations are functions of the store that return no new store; the only effect is
the allocation of the throwaway record by `GetPomodoroStats`, which leaves the maps (not
returned, hence untouched), every other heap and every existing statistics record as
they were. -/
theorem C13_lookups_never_fail (s : MemoryStorage) (mem : Memory) (userID : GoString) :
    ((GetUser s userID).2 = none ∧ (GetUser s userID).1 = s.users userID) ∧
    ((GetUserTasks s userID).2 = none ∧ (GetUserTasks s userID).1 = sliceAt s.tasks userID ∧
      (s.tasks userID = none → (GetUserTasks s userID).1 = [])) ∧
    ((GetUserGoals s userID).2 = none ∧ (GetUserGoals s userID).1 = sliceAt s.goals userID ∧
      (s.goals userID = none → (GetUserGoals s userID).1 = [])) ∧
    ((GetUserPomodoroSessions s userID).2 = none ∧
      (GetUserPomodoroSessions s userID).1 = sliceAt s.pomodoroSessions userID ∧
      (s.pomodoroSessions userID = none → (GetUserPomodoroSessions s userID).1 = [])) ∧
    ((GetPomodoroStats s mem userID).2 = none ∧
      (s.pomodoroStats userID = none →
        (GetPomodoroStats s mem userID).1.2.stats.obj (GetPomodoroStats s mem userID).1.1
          = { UserID := userID, TotalSessions := 0, CompletedToday := 0, TotalFocusTime := 0,
              CurrentStreak := 0 }) ∧
      (∀ p, s.pomodoroStats userID = some p →
        (GetPomodoroStats s mem userID).1.1 = p ∧ (GetPomodoroStats s mem userID).1.2 = mem) ∧
      (GetPomodoroStats s mem userID).1.2.users = mem.users ∧
      (GetPomodoroStats s mem userID).1.2.tasks = mem.tasks ∧
      (GetPomodoroStats s mem userID).1.2.goals = mem.goals ∧
      (GetPomodoroStats s mem userID).1.2.sessions = mem.sessions ∧
      (∀ p, p < mem.stats.next →
        (GetPomodoroStats s mem userID).1.2.stats.obj p = mem.stats.obj p)) := by
  refine ⟨?_, ?_, ?_, ?_, ?_⟩
  · unfold GetUser
    cases s.users userID <;> exact ⟨rfl, rfl⟩
  · unfold GetUserTasks sliceAt
    cases h : s.tasks userID
    · exact ⟨rfl, rfl, fun _ => rfl⟩
    · exact ⟨rfl, rfl, fun h' => nomatch h'⟩
  · unfold GetUserGoals sliceAt
    cases h : s.goals userID
    · exact ⟨rfl, rfl, fun _ => rfl⟩
    · exact ⟨rfl, rfl, fun h' => nomatch h'⟩
  · unfold GetUserPomodoroSessions sliceAt
    cases h : s.pomodoroSessions userID
    · exact ⟨rfl, rfl, fun _ => rfl⟩
    · exact ⟨rfl, rfl, fun h' => nomatch h'⟩
  · unfold GetPomodoroStats
    cases h : s.pomodoroStats userID with
    | none =>
      refine ⟨rfl, fun _ => ?_, (fun p hp => nomatch hp), rfl, rfl, rfl, rfl, fun p hp => ?_⟩
      · exact Heap.alloc_obj_next _ _
      · show (mem.stats.alloc _).obj p = _
        rw [Heap.alloc_obj, if_neg (Nat.ne_of_lt hp)]
    | some q =>
      refine ⟨rfl, (fun h' => nomatch h'), fun p hp => ?_, rfl, rfl, rfl, rfl, fun p _ => rfl⟩
      injection hp with hp
      subst hp
      exact ⟨rfl, rfl⟩

/-- Cutting out the first hit of `firstIndex` is `List.eraseP`. -/
theorem firstIndex_erase {α : Type} (q : α → Bool) (l : List α) :
    (match firstIndex q l with
      | some i => l.take i ++ l.drop (i + 1)
      | none => l) = l.eraseP q := by
  induction l with
  | nil => rfl
  | cons a l ih =>
    unfold firstIndex
    by_cases ha : q a = true
    · simp [ha]
    · simp only [ha, Bool.false_eq_true, if_false]
      rw [List.eraseP_cons_of_neg ha]
      cases hf : firstIndex q l with
      | none =>
        rw [hf] at ih
        simp only [Option.map_none']
        rw [← ih]
      | some i =>
        rw [hf] at ih
        simp only [Option.map_some']
        rw [← ih]
        rfl

theorem firstIndex_none {α : Type} (q : α → Bool) (l : List α) :
    firstIndex q l = none ↔ ∀ a ∈ l, q a = false := by
  induction l with
  | nil => simp [firstIndex]
  | cons a l ih =>
    unfold firstIndex
    by_cases ha : q a = true
    · simp [ha]
    · simp [ha, ih]

theorem eraseP_map {α β : Type} (f : α → β) (q : β → Bool) (l : List α) :
    (l.map f).eraseP q = (l.eraseP (fun a => q (f a))).map f := by
  induction l with
  | nil => rfl
  | cons a l ih =>
    by_cases ha : q (f a) = true
    · simp [List.eraseP_cons, ha]
    · simp [List.eraseP_cons, ha, ih]

/-- C12 (store DeleteTask removes by identity): for every store, heap, user and task ID,
`DeleteTask` returns a nil error; the tasks of the user afterwards are the previous tasks
with the first one whose `ID` is the given ID removed and the others in their order; when
no task of the user has that ID the whole store is unchanged; the list of every other
user and every other map are unchanged. -/
theorem C12_DeleteTask_by_identity (s : MemoryStorage) (mem : Memory) (u t : GoString) :
    (DeleteTask s mem u t).2 = none ∧
    (GetUserTasks (DeleteTask s mem u t).1 u).1.map mem.tasks.obj
      = ((GetUserTasks s u).1.map mem.tasks.obj).eraseP (fun task => decide (task.ID = t)) ∧
    ((∀ task ∈ (GetUserTasks s u).1.map mem.tasks.obj, task.ID ≠ t) →
      (DeleteTask s mem u t).1 = s) ∧
    (∀ v, v ≠ u → (DeleteTask s mem u t).1.tasks v = s.tasks v) ∧
    ((DeleteTask s mem u t).1.users = s.users ∧
      (DeleteTask s mem u t).1.userData = s.userData ∧
      (DeleteTask s mem u t).1.pomodoroStats = s.pomodoroStats ∧
      (DeleteTask s mem u t).1.goals = s.goals ∧
      (DeleteTask s mem u t).1.pomodoroSessions = s.pomodoroSessions) := by
  rw [eraseP_map]
  unfold DeleteTask GetUserTasks
  cases hs : s.tasks u with
  | none =>
    simp [hs]
  | some tasks =>
    dsimp only
    have he := firstIndex_erase (fun task => decide ((mem.tasks.obj task).ID = t)) tasks
    cases hf : firstIndex (fun task => decide ((mem.tasks.obj task).ID = t)) tasks with
    | none =>
      rw [hf] at he
      dsimp only at he ⊢
      refine ⟨rfl, ?_, fun _ => rfl, fun _ _ => rfl, rfl, rfl, rfl, rfl, rfl⟩
      rw [hs, ← he]
    | some i =>
      rw [hf] at he
      dsimp only at he ⊢
      refine ⟨rfl, ?_, ?_, ?_, rfl, rfl, rfl, rfl, rfl⟩
      · simp only [GoMap.set_same]
        rw [he]
      · intro hall
        have hnone := (firstIndex_none (fun task => decide ((mem.tasks.obj task).ID = t)) tasks).2
          (fun a ha => by
            have := hall (mem.tasks.obj a) (List.mem_map_of_mem _ ha)
            simp [this])
        rw [hnone] at hf
        exact nomatch hf
      · intro v hv
        exact GoMap.set_other _ _ _ _ hv

/-- C15 (failing input): user 7 sends exactly "добавить задачу".  The part after "задач"
is the letter "у", two bytes in UTF-8; `parts[1][1:]` drops only its first byte, the
remaining byte 0x83 is not white space, so the description is not empty: `addTask`
answers that the task was added and stores a task whose text is that byte.  Trailing
white space does not change this. -/
theorem C15_empty_text_is_stored :
    (Split (goString "добавить задачу") (goString "задач")).getD 1 [] = [0xD1, 0x83] ∧
    tasksOf New (goString "7") = [] ∧
    (addTask New (goString "добавить задачу") (goString "7") 100).1
      = goString "✅ Задача добавлена: \"" ++ [0x83]
          ++ goString "\"\n\nИспользуй \"список задач\" чтобы посмотреть все задачи." ∧
    (tasksOf (addTask New (goString "добавить задачу") (goString "7") 100).2 (goString "7")).map
      (fun t => t.Text) = [[0x83]] ∧
    (tasksOf (addTask New (goString "добавить задачу  ") (goString "7") 100).2
      (goString "7")).map (fun t => t.Text) = [[0x83]] := by
  decide

theorem GetUser_eq (s : MemoryStorage) (k : GoString) : (GetUser s k).1 = s.users k := by
  unfold GetUser
  cases s.users k <;> rfl

/-- The contract of `SaveUser` on a well-formed store (each stored user pointer is filed
under the `MAXUserID` of its record), for any pointer `p`, stored already or not. -/
theorem SaveUser_contract (s : MemoryStorage) (mem : Memory) (p : Ptr) (now : Nat)
    (h : KeysOK s.users mem.users User.MAXUserID) :
    (SaveUser s mem p now).2 = none ∧
    (GetUser (SaveUser s mem p now).1.1 (mem.users.obj p).MAXUserID).1.map
        (SaveUser s mem p now).1.2.users.obj
      = some { mem.users.obj p with
          RegistrationDate :=
            if (mem.users.obj p).RegistrationDate = none then some now
            else (mem.users.obj p).RegistrationDate,
          LastActivity := some now } ∧
    (∀ k, k ≠ (mem.users.obj p).MAXUserID →
      (GetUser (SaveUser s mem p now).1.1 k).1.map (SaveUser s mem p now).1.2.users.obj
        = (GetUser s k).1.map mem.users.obj) := by
  refine ⟨rfl, ?_, ?_⟩
  · rw [GetUser_eq, SaveUser_users, SaveUser_mem_users, GoMap.set_same]
    simp only [Option.map_some', Heap.store_obj, if_pos]
    unfold savedUser
    split <;> rfl
  · intro k hk
    rw [GetUser_eq, GetUser_eq, SaveUser_users, SaveUser_mem_users, GoMap.set_other _ _ _ _ hk]
    cases hq : s.users k with
    | none => rfl
    | some q =>
      simp only [Option.map_some']
      have hne : q ≠ p := by
        intro heq
        subst heq
        exact hk (h k q hq).2.symm
      rw [Heap.store_obj, if_neg hne]

/-- C11 (SaveUser contract): for every reachable store state, every user record `r` (held
in a freshly allocated object, as the caller of `SaveUser` passes it) and every clock
reading `now`, `SaveUser` returns a nil error; afterwards `GetUser(r.MAXUserID)` returns
`r` with `LastActivity` set to `now` and `RegistrationDate` kept if it was set and set to
`now` otherwise, identity and name fields as in `r`; and `GetUser` of every other ID
returns the record it returned before. -/
theorem C11_SaveUser_contract (es : List Event) (r : User) (now : Nat) :
    (SaveUser (run es).h.storage
        { (run es).mem with users := (run es).mem.users.alloc r }
        (run es).mem.users.next now).2 = none ∧
    (GetUser (SaveUser (run es).h.storage
          { (run es).mem with users := (run es).mem.users.alloc r }
          (run es).mem.users.next now).1.1 r.MAXUserID).1.map
        (SaveUser (run es).h.storage
          { (run es).mem with users := (run es).mem.users.alloc r }
          (run es).mem.users.next now).1.2.users.obj
      = some { r with
          RegistrationDate := if r.RegistrationDate = none then some now else r.RegistrationDate,
          LastActivity := some now } ∧
    (∀ k, k ≠ r.MAXUserID →
      (GetUser (SaveUser (run es).h.storage
            { (run es).mem with users := (run es).mem.users.alloc r }
            (run es).mem.users.next now).1.1 k).1.map
          (SaveUser (run es).h.storage
            { (run es).mem with users := (run es).mem.users.alloc r }
            (run es).mem.users.next now).1.2.users.obj
        = userOf (run es) k) := by
  have hwf := (run_WF es).users
  have hk : KeysOK (run es).h.storage.users
      ({ (run es).mem with users := (run es).mem.users.alloc r } : Memory).users
      User.MAXUserID := hwf.alloc_keys r
  have hc := SaveUser_contract (run es).h.storage
    { (run es).mem with users := (run es).mem.users.alloc r } (run es).mem.users.next now hk
  have hobj : ({ (run es).mem with users := (run es).mem.users.alloc r } : Memory).users.obj
      (run es).mem.users.next = r := Heap.alloc_obj_next _ _
  rw [hobj] at hc
  refine ⟨hc.1, hc.2.1, fun k hkne => ?_⟩
  rw [hc.2.2 k hkne, userOf_eq, GetUser_eq]
  cases hq : (run es).h.storage.users k with
  | none => rfl
  | some q =>
    simp only [Option.map_some']
    rw [Heap.alloc_obj, if_neg (Nat.ne_of_lt (hwf k q hq).1)]

/-- Events other than the five task operations leave the task lists and records alone. -/
theorem step_tasks_frame (w : World) (e : Event)
    (haddTask : ∀ a0 a1 a2, e ≠ .addTask a0 a1 a2)
    (hdeleteTask : ∀ a0 a1, e ≠ .deleteTask a0 a1)
    (hcompleteTask : ∀ a0 a1, e ≠ .completeTask a0 a1)
    (hcompleteTaskByID : ∀ a0 a1, e ≠ .completeTaskByID a0 a1)
    (hdeleteTaskByID : ∀ a0 a1, e ≠ .deleteTaskByID a0 a1) :
    (step w e).h.storage.tasks = w.h.storage.tasks ∧
      (step w e).mem.tasks = w.mem.tasks := by
  cases e with
  | registerUser f n u now =>
    refine ⟨?_, ?_⟩
    all_goals simp only [step, registerUser, GetUser, SaveUser, UpdateUserActivity]
    all_goals repeat' split
    all_goals rfl
  | startPomodoro u now =>
    exact ⟨rfl, rfl⟩
  | stopPomodoro u now =>
    refine ⟨?_, ?_⟩
    all_goals simp only [step, stopPomodoro]
    all_goals repeat' split
    all_goals rfl
  | startBreak u =>
    exact ⟨rfl, rfl⟩
  | timerExpires t =>
    refine ⟨?_, ?_⟩
    all_goals simp only [step, timerExpires]
    all_goals repeat' split
    all_goals rfl
  | callbackRuns t now =>
    refine ⟨?_, ?_⟩
    all_goals simp only [step, callbackRuns, completePomodoro, completeBreak, GetPomodoroStats, UpdatePomodoroStats]
    all_goals repeat' split
    all_goals rfl
  | addTask text u now =>
    exact absurd rfl (haddTask text u now)
  | deleteTask text u =>
    exact absurd rfl (hdeleteTask text u)
  | completeTask text u =>
    exact absurd rfl (hcompleteTask text u)
  | completeTaskByID u id =>
    exact absurd rfl (hcompleteTaskByID u id)
  | deleteTaskByID u id =>
    exact absurd rfl (hdeleteTaskByID u id)
  | addGoal text u now d =>
    refine ⟨?_, ?_⟩
    all_goals simp only [step, addGoal]
    all_goals repeat' split
    all_goals rfl
  | deleteGoal text u =>
    refine ⟨?_, ?_⟩
    all_goals simp only [step, deleteGoal]
    all_goals repeat' split
    all_goals rfl

/-- Events other than `addGoal` leave the goal lists and records alone. -/
theorem step_goals_frame (w : World) (e : Event)
    (haddGoal : ∀ a0 a1 a2 a3, e ≠ .addGoal a0 a1 a2 a3) :
    (step w e).h.storage.goals = w.h.storage.goals ∧
      (step w e).mem.goals = w.mem.goals := by
  cases e with
  | registerUser f n u now =>
    refine ⟨?_, ?_⟩
    all_goals simp only [step, registerUser, GetUser, SaveUser, UpdateUserActivity]
    all_goals repeat' split
    all_goals rfl
  | startPomodoro u now =>
    exact ⟨rfl, rfl⟩
  | stopPomodoro u now =>
    refine ⟨?_, ?_⟩
    all_goals simp only [step, stopPomodoro]
    all_goals repeat' split
    all_goals rfl
  | startBreak u =>
    exact ⟨rfl, rfl⟩
  | timerExpires t =>
    refine ⟨?_, ?_⟩
    all_goals simp only [step, timerExpires]
    all_goals repeat' split
    all_goals rfl
  | callbackRuns t now =>
    refine ⟨?_, ?_⟩
    all_goals simp only [step, callbackRuns, completePomodoro, completeBreak, GetPomodoroStats, UpdatePomodoroStats]
    all_goals repeat' split
    all_goals rfl
  | addTask text u now =>
    refine ⟨?_, ?_⟩
    all_goals simp only [step, addTask]
    all_goals repeat' split
    all_goals rfl
  | deleteTask text u =>
    refine ⟨?_, ?_⟩
    all_goals simp only [step, deleteTask, DeleteTask]
    all_goals repeat' split
    all_goals rfl
  | completeTask text u =>
    refine ⟨?_, ?_⟩
    all_goals simp only [step, completeTask]
    all_goals repeat' split
    all_goals rfl
  | completeTaskByID u id =>
    refine ⟨?_, ?_⟩
    all_goals simp only [step, completeTaskByID]
    all_goals repeat' split
    all_goals rfl
  | deleteTaskByID u id =>
    refine ⟨?_, ?_⟩
    all_goals simp only [step, deleteTaskByID, DeleteTask]
    all_goals repeat' split
    all_goals rfl
  | addGoal text u now d =>
    exact absurd rfl (haddGoal text u now d)
  | deleteGoal text u =>
    refine ⟨?_, ?_⟩
    all_goals simp only [step, deleteGoal]
    all_goals repeat' split
    all_goals rfl

/-- Events other than `registerUser` leave the user map and records alone. -/
theorem step_users_frame (w : World) (e : Event)
    (hregisterUser : ∀ a0 a1 a2 a3, e ≠ .registerUser a0 a1 a2 a3) :
    (step w e).h.storage.users = w.h.storage.users ∧
      (step w e).mem.users = w.mem.users := by
  cases e with
  | registerUser f n u now =>
    exact absurd rfl (hregisterUser f n u now)
  | startPomodoro u now =>
    exact ⟨rfl, rfl⟩
  | stopPomodoro u now =>
    refine ⟨?_, ?_⟩
    all_goals simp only [step, stopPomodoro]
    all_goals repeat' split
    all_goals rfl
  | startBreak u =>
    exact ⟨rfl, rfl⟩
  | timerExpires t =>
    refine ⟨?_, ?_⟩
    all_goals simp only [step, timerExpires]
    all_goals repeat' split
    all_goals rfl
  | callbackRuns t now =>
    refine ⟨?_, ?_⟩
    all_goals simp only [step, callbackRuns, completePomodoro, completeBreak, GetPomodoroStats, UpdatePomodoroStats]
    all_goals repeat' split
    all_goals rfl
  | addTask text u now =>
    refine ⟨?_, ?_⟩
    all_goals simp only [step, addTask]
    all_goals repeat' split
    all_goals rfl
  | deleteTask text u =>
    refine ⟨?_, ?_⟩
    all_goals simp only [step, deleteTask, DeleteTask]
    all_goals repeat' split
    all_goals rfl
  | completeTask text u =>
    refine ⟨?_, ?_⟩
    all_goals simp only [step, completeTask]
    all_goals repeat' split
    all_goals rfl
  | completeTaskByID u id =>
    refine ⟨?_, ?_⟩
    all_goals simp only [step, completeTaskByID]
    all_goals repeat' split
    all_goals rfl
  | deleteTaskByID u id =>
    refine ⟨?_, ?_⟩
    all_goals simp only [step, deleteTaskByID, DeleteTask]
    all_goals repeat' split
    all_goals rfl
  | addGoal text u now d =>
    refine ⟨?_, ?_⟩
    all_goals simp only [step, addGoal]
    all_goals repeat' split
    all_goals rfl
  | deleteGoal text u =>
    refine ⟨?_, ?_⟩
    all_goals simp only [step, deleteGoal]
    all_goals repeat' split
    all_goals rfl

/-- Events other than the session operations and timer firings leave the timers and the registry alone. -/
theorem step_registry_frame (w : World) (e : Event)
    (hstartPomodoro : ∀ a0 a1, e ≠ .startPomodoro a0 a1)
    (hstopPomodoro : ∀ a0 a1, e ≠ .stopPomodoro a0 a1)
    (hstartBreak : ∀ a0, e ≠ .startBreak a0)
    (htimerExpires : ∀ a0, e ≠ .timerExpires a0)
    (hcallbackRuns : ∀ a0 a1, e ≠ .callbackRuns a0 a1) :
    (step w e).timers = w.timers ∧
      (step w e).h.activeTimers = w.h.activeTimers := by
  cases e with
  | registerUser f n u now =>
    refine ⟨?_, ?_⟩
    all_goals simp only [step, registerUser, GetUser, SaveUser, UpdateUserActivity]
    all_goals repeat' split
    all_goals rfl
  | startPomodoro u now =>
    exact absurd rfl (hstartPomodoro u now)
  | stopPomodoro u now =>
    exact absurd rfl (hstopPomodoro u now)
  | startBreak u =>
    exact absurd rfl (hstartBreak u)
  | timerExpires t =>
    exact absurd rfl (htimerExpires t)
  | callbackRuns t now =>
    exact absurd rfl (hcallbackRuns t now)
  | addTask text u now =>
    refine ⟨?_, ?_⟩
    all_goals simp only [step, addTask]
    all_goals repeat' split
    all_goals rfl
  | deleteTask text u =>
    refine ⟨?_, ?_⟩
    all_goals simp only [step, deleteTask, DeleteTask]
    all_goals repeat' split
    all_goals rfl
  | completeTask text u =>
    refine ⟨?_, ?_⟩
    all_goals simp only [step, completeTask]
    all_goals repeat' split
    all_goals rfl
  | completeTaskByID u id =>
    refine ⟨?_, ?_⟩
    all_goals simp only [step, completeTaskByID]
    all_goals repeat' split
    all_goals rfl
  | deleteTaskByID u id =>
    refine ⟨?_, ?_⟩
    all_goals simp only [step, deleteTaskByID, DeleteTask]
    all_goals repeat' split
    all_goals rfl
  | addGoal text u now d =>
    refine ⟨?_, ?_⟩
    all_goals simp only [step, addGoal]
    all_goals repeat' split
    all_goals rfl
  | deleteGoal text u =>
    refine ⟨?_, ?_⟩
    all_goals simp only [step, deleteGoal]
    all_goals repeat' split
    all_goals rfl

theorem tasksOf_congr {w w' : World} (h1 : w'.h.storage.tasks = w.h.storage.tasks)
    (h2 : w'.mem.tasks = w.mem.tasks) (u : GoString) : tasksOf w' u = tasksOf w u := by
  rw [tasksOf_eq, tasksOf_eq, h1, h2]

theorem goalsOf_eq (w : World) (u : GoString) :
    goalsOf w u = (sliceAt w.h.storage.goals u).map w.mem.goals.obj := by
  unfold goalsOf GetUserGoals sliceAt
  cases w.h.storage.goals u <;> rfl

theorem goalsOf_congr {w w' : World} (h1 : w'.h.storage.goals = w.h.storage.goals)
    (h2 : w'.mem.goals = w.mem.goals) (u : GoString) : goalsOf w' u = goalsOf w u := by
  rw [goalsOf_eq, goalsOf_eq, h1, h2]

theorem userOf_congr {w w' : World} (h1 : w'.h.storage.users = w.h.storage.users)
    (h2 : w'.mem.users = w.mem.users) (u : GoString) : userOf w' u = userOf w u := by
  rw [userOf_eq, userOf_eq, h1, h2]

theorem sliceAt_set_other (m : GoMap (List Ptr)) (u v : GoString) (l : List Ptr) (h : v ≠ u) :
    sliceAt (m.set u l) v = sliceAt m v := by
  unfold sliceAt
  rw [GoMap.set_other _ _ _ _ h]

/-- A write to an object of another owner does not show in a user's list. -/
theorem map_store_other_owner {α : Type} {m : GoMap (List Ptr)} {hp : Heap α}
    {uid : α → GoString} (h : ListsOK m hp uid) (u v : GoString) (huv : v ≠ u) (p : Ptr)
    (hpu : p ∈ sliceAt m u) (x : α) :
    (sliceAt m v).map (hp.store p x).obj = (sliceAt m v).map hp.obj := by
  apply map_store_not_mem
  intro hmem
  have h1 := ((h.slice v).2 p hmem).2
  have h2 := ((h.slice u).2 p hpu).2
  exact huv (h1.symm.trans h2)

theorem getD_mem_of_lt (l : List Ptr) (i : Nat) (h : i < l.length) : l.getD i 0 ∈ l := by
  rw [List.getD_eq_getElem _ _ h]
  exact List.getElem_mem _

theorem find_mem {l : List Ptr} {q : Ptr → Bool} {p : Ptr} (h : l.find? q = some p) : p ∈ l :=
  List.mem_of_find?_eq_some h

theorem DeleteTask_tasks_other (s : MemoryStorage) (mem : Memory) (u id v : GoString)
    (h : v ≠ u) : sliceAt (DeleteTask s mem u id).1.tasks v = sliceAt s.tasks v := by
  unfold DeleteTask
  split
  · rfl
  · split
    · exact sliceAt_set_other _ _ _ _ h
    · rfl

theorem addTask_tasksOf_other {w : World} (h : WF w) (text u : GoString) (now : Nat)
    (v : GoString) (hv : v ≠ u) : tasksOf (addTask w text u now).2 v = tasksOf w v := by
  rw [tasksOf_eq, tasksOf_eq]
  have hlt : ∀ q ∈ sliceAt w.h.storage.tasks v, q < w.mem.tasks.next :=
    fun q hq => ((h.tasks.slice v).2 q hq).1
  unfold addTask
  dsimp only
  repeat' split
  all_goals first
    | rfl
    | exact map_alloc_of_lt _ _ _ hlt
    | (rw [SaveTask_tasks, SaveTask_mem_tasks]
       simp only [Heap.alloc_obj_next]
       rw [sliceAt_set_other _ _ _ _ hv, map_store_not_mem _ _ _ _
         (fun hmem => Nat.lt_irrefl _ (hlt _ hmem)), map_alloc_of_lt _ _ _ hlt])

theorem addGoal_goalsOf_other {w : World} (h : WF w) (text u : GoString) (now d : Nat)
    (v : GoString) (hv : v ≠ u) : goalsOf (addGoal w text u now d).2 v = goalsOf w v := by
  rw [goalsOf_eq, goalsOf_eq]
  have hlt : ∀ q ∈ sliceAt w.h.storage.goals v, q < w.mem.goals.next :=
    fun q hq => ((h.goals.slice v).2 q hq).1
  unfold addGoal
  dsimp only
  repeat' split
  all_goals first
    | rfl
    | exact map_alloc_of_lt _ _ _ hlt
    | (rw [SaveGoal_goals, SaveGoal_mem_goals]
       simp only [Heap.alloc_obj_next]
       rw [sliceAt_set_other _ _ _ _ hv, map_store_not_mem _ _ _ _
         (fun hmem => Nat.lt_irrefl _ (hlt _ hmem)), map_alloc_of_lt _ _ _ hlt])

theorem deleteTask_tasksOf_other (w : World) (text u : GoString)
    (v : GoString) (hv : v ≠ u) : tasksOf (deleteTask w text u).2 v = tasksOf w v := by
  rw [tasksOf_eq, tasksOf_eq]
  unfold deleteTask
  dsimp only
  repeat' split
  all_goals first
    | rfl
    | (dsimp only; rw [DeleteTask_tasks_other _ _ _ _ _ hv])

theorem deleteTaskByID_tasksOf_other (w : World) (u id : GoString)
    (v : GoString) (hv : v ≠ u) : tasksOf (deleteTaskByID w u id) v = tasksOf w v := by
  rw [tasksOf_eq, tasksOf_eq]
  unfold deleteTaskByID
  dsimp only
  repeat' split
  all_goals first
    | rfl
    | (dsimp only; rw [DeleteTask_tasks_other _ _ _ _ _ hv])

theorem completeTask_tasksOf_other {w : World} (h : WF w) (text u : GoString)
    (v : GoString) (hv : v ≠ u) : tasksOf (completeTask w text u).2 v = tasksOf w v := by
  rw [tasksOf_eq, tasksOf_eq]
  unfold completeTask
  dsimp only
  rw [GetUserTasks_eq]
  split
  · rfl
  · next hne =>
    split
    · rfl
    · next hnz =>
      have hr := numberFromParts_range (sliceAt w.h.storage.tasks u).length (Fields text)
      have hidx : (numberFromParts (sliceAt w.h.storage.tasks u).length (Fields text) - 1).toNat
          < (sliceAt w.h.storage.tasks u).length := by
        rcases hr with hr | hr
        · exact absurd hr hnz
        · omega
      exact map_store_other_owner h.tasks u v hv _ (getD_mem_of_lt _ _ hidx) _

theorem completeTaskByID_tasksOf_other {w : World} (h : WF w) (u id : GoString)
    (v : GoString) (hv : v ≠ u) : tasksOf (completeTaskByID w u id) v = tasksOf w v := by
  rw [tasksOf_eq, tasksOf_eq]
  unfold completeTaskByID
  dsimp only
  rw [GetUserTasks_eq]
  split
  · next p hp => exact map_store_other_owner h.tasks u v hv p (find_mem hp) _
  · rfl

theorem GetUserPomodoroSessions_eq (s : MemoryStorage) (u : GoString) :
    (GetUserPomodoroSessions s u).1 = sliceAt s.pomodoroSessions u := by
  unfold GetUserPomodoroSessions sliceAt
  cases s.pomodoroSessions u <;> rfl

theorem completePomodoro_pomodoroSessions (w : World) (u : GoString) (now : Nat)
    (id : GoString) :
    (completePomodoro w u now id).h.storage.pomodoroSessions = w.h.storage.pomodoroSessions := by
  unfold completePomodoro GetPomodoroStats UpdatePomodoroStats
  rfl

theorem completePomodoro_mem_sessions (w : World) (u : GoString) (now : Nat) (id : GoString) :
    (completePomodoro w u now id).mem.sessions =
      match (sliceAt w.h.storage.pomodoroSessions u).find?
          (fun session => decide ((w.mem.sessions.obj session).ID = id)) with
      | some session => w.mem.sessions.store session
          { w.mem.sessions.obj session with Completed := true, EndTime := some now }
      | none => w.mem.sessions := by
  rw [← GetUserPomodoroSessions_eq]
  unfold completePomodoro GetPomodoroStats UpdatePomodoroStats
  dsimp only
  generalize List.find? (fun session => decide ((w.mem.sessions.obj session).ID = id))
    (GetUserPomodoroSessions w.h.storage u).1 = r
  cases r <;> cases w.h.storage.pomodoroStats u <;> rfl

theorem completePomodoro_sessionsOf_other {w : World} (h : WF w) (u : GoString) (now : Nat)
    (id : GoString) (v : GoString) (hv : v ≠ u) :
    sessionsOf (completePomodoro w u now id) v = sessionsOf w v := by
  rw [sessionsOf_eq, sessionsOf_eq, completePomodoro_pomodoroSessions,
    completePomodoro_mem_sessions]
  split
  · next p hp => exact map_store_other_owner h.sessions u v hv p (find_mem hp) _
  · rfl

theorem callbackRuns_sessionsOf_other {w : World} (h : WF w) (t : Ptr) (now : Nat)
    (v : GoString) (hv : (w.timers.obj t).callback.userID ≠ v) :
    sessionsOf (callbackRuns w t now) v = sessionsOf w v := by
  unfold callbackRuns
  dsimp only
  split
  · next harmed =>
    cases hc : (w.timers.obj t).callback with
    | work u sp =>
      rw [hc] at hv
      dsimp only
      have key : ∀ w1 : World, w1.h.storage.pomodoroSessions = w.h.storage.pomodoroSessions →
          w1.mem.sessions = w.mem.sessions → ∀ id,
          sessionsOf (completePomodoro w1 u now id) v = sessionsOf w v := by
        intro w1 e1 e2 id
        rw [sessionsOf_eq, sessionsOf_eq, completePomodoro_pomodoroSessions,
          completePomodoro_mem_sessions, e1, e2]
        split
        · next p hp =>
          exact map_store_other_owner h.sessions u v (fun h' => hv h'.symm) p (find_mem hp) _
        · rfl
      exact key _ rfl rfl _
    | rest u => rfl
  · rfl

theorem stopTimer_obj_other (timers : Heap Timer) (t0 t : Ptr) (h : t ≠ t0) :
    (stopTimer timers t0).obj t = timers.obj t := by
  unfold stopTimer
  split
  · rw [Heap.store_obj, if_neg h]
  · rfl

theorem stopRegistered_obj_other (timers : Heap Timer) (active : GoMap Ptr) (u : GoString)
    (t : Ptr) (h : active u ≠ some t) :
    (stopRegistered timers active u).obj t = timers.obj t := by
  unfold stopRegistered
  split
  · next t0 ht0 =>
    apply stopTimer_obj_other
    intro heq
    subst heq
    exact h ht0
  · rfl

theorem OwnersOK.restart_owners {timers : Heap Timer} {active : GoMap Ptr}
    (h : OwnersOK timers active) (hr : RegistryOK timers active) (u : GoString) (c : Callback)
    (hc : c.userID = u) :
    OwnersOK ((stopRegistered timers active u).alloc { callback := c, state := .armed })
      (active.set u (stopRegistered timers active u).next) := by
  intro k t hk
  rw [GoMap.set_apply] at hk
  rw [Heap.alloc_obj]
  split at hk
  · next hku =>
    injection hk with hk
    rw [if_pos hk.symm, hku]
    exact hc
  · have hlt := hr k t hk
    rw [stopRegistered_next, if_neg (Nat.ne_of_lt hlt), stopRegistered_callback]
    exact h k t hk

theorem OwnersOK.stop_owners {timers : Heap Timer} {active : GoMap Ptr}
    (h : OwnersOK timers active) (u : GoString) :
    OwnersOK (stopRegistered timers active u)
      (match active u with
        | some _ => active.delete u
        | none => active) := by
  intro k t hk
  rw [stopRegistered_callback]
  cases hau : active u with
  | none => rw [hau] at hk; exact h k t hk
  | some t1 =>
    rw [hau] at hk
    change active.delete u k = some t at hk
    rw [GoMap.delete_apply] at hk
    split at hk
    · exact absurd hk (fun h => nomatch h)
    · exact h k t hk

theorem OwnersOK.fire_owners {timers : Heap Timer} {active : GoMap Ptr}
    (h : OwnersOK timers active) (t0 : Ptr) (v : Timer)
    (hv : v.callback = (timers.obj t0).callback) (k : GoString) :
    OwnersOK (timers.store t0 v) (active.delete k) := by
  intro u t hk
  rw [GoMap.delete_apply] at hk
  split at hk
  · exact absurd hk (fun h => nomatch h)
  · rw [Heap.store_obj]
    split
    · next heq => subst heq; rw [hv]; exact h u t hk
    · exact h u t hk

theorem callbackRuns_owners {w : World} (h : OwnersOK w.timers w.h.activeTimers)
    (t : Ptr) (now : Nat) :
    OwnersOK (callbackRuns w t now).timers (callbackRuns w t now).h.activeTimers := by
  unfold callbackRuns
  dsimp only
  split
  · cases hc : (w.timers.obj t).callback with
    | work u sp => exact h.fire_owners t _ hc.symm u
    | rest u => exact h.fire_owners t _ hc.symm u
  · exact h

theorem OwnersOK.write_owners {timers : Heap Timer} {active : GoMap Ptr}
    (h : OwnersOK timers active) (t0 : Ptr) (v : Timer)
    (hv : v.callback = (timers.obj t0).callback) : OwnersOK (timers.store t0 v) active := by
  intro u t hk
  rw [Heap.store_obj]
  split
  · next heq => subst heq; rw [hv]; exact h u t hk
  · exact h u t hk

theorem timerExpires_owners {w : World} (h : OwnersOK w.timers w.h.activeTimers) (t : Ptr) :
    OwnersOK (timerExpires w t).timers (timerExpires w t).h.activeTimers := by
  unfold timerExpires
  split
  · exact h.write_owners t _ rfl
  · exact h

theorem step_owners {w : World} (h : OwnersOK w.timers w.h.activeTimers)
    (hr : RegistryOK w.timers w.h.activeTimers) (e : Event) :
    OwnersOK (step w e).timers (step w e).h.activeTimers := by
  by_cases h1 : ∃ u now, e = .startPomodoro u now
  · obtain ⟨u, now, rfl⟩ := h1
    exact h.restart_owners hr u _ rfl
  by_cases h2 : ∃ u now, e = .stopPomodoro u now
  · obtain ⟨u, now, rfl⟩ := h2
    exact h.stop_owners u
  by_cases h3 : ∃ u, e = .startBreak u
  · obtain ⟨u, rfl⟩ := h3
    exact h.restart_owners hr u _ rfl
  by_cases h5 : ∃ t, e = .timerExpires t
  · obtain ⟨t, rfl⟩ := h5
    exact timerExpires_owners h t
  by_cases h4 : ∃ t now, e = .callbackRuns t now
  · obtain ⟨t, now, rfl⟩ := h4
    exact callbackRuns_owners h t now
  obtain ⟨e1, e2⟩ := step_registry_frame w e (fun a b he => h1 ⟨a, b, he⟩)
    (fun a b he => h2 ⟨a, b, he⟩) (fun a he => h3 ⟨a, he⟩) (fun a he => h5 ⟨a, he⟩)
    (fun a b he => h4 ⟨a, b, he⟩)
  rw [e1, e2]
  exact h

theorem runFrom_owners {w : World} (hw : WF w) (h : OwnersOK w.timers w.h.activeTimers)
    (es : List Event) :
    OwnersOK (runFrom w es).timers (runFrom w es).h.activeTimers := by
  induction es generalizing w with
  | nil => exact h
  | cons e es ih => exact ih (step_WF hw e) (step_owners h hw.registry e)

/-- In every reachable state a registered timer belongs to the user it is registered
for. -/
theorem run_owners (es : List Event) : OwnersOK (run es).timers (run es).h.activeTimers :=
  runFrom_owners New_WF (fun _ _ h => nomatch h) es

theorem delete_if_registered_other (active : GoMap Ptr) (u v : GoString) (h : v ≠ u) :
    (match active u with
      | some _ => active.delete u
      | none => active) v = active v := by
  cases active u with
  | none => rfl
  | some t => exact (GoMap.delete_apply _ _ _).trans (if_neg h)

/-- An event issued for another user leaves a user's focus status alone. -/
theorem step_status_other (w : World) (e : Event) (v : GoString) (hv : issuer w e ≠ v) :
    (step w e).h.pomodoroStatus v = w.h.pomodoroStatus v := by
  have hv' : v ≠ issuer w e := fun h => hv h.symm
  cases e with
  | startPomodoro u now => exact GoMap.set_other _ _ _ _ hv'
  | stopPomodoro u now => exact GoMap.set_other _ _ _ _ hv'
  | startBreak u => exact GoMap.set_other _ _ _ _ hv'
  | timerExpires t =>
    simp only [step, timerExpires]
    repeat' split
    all_goals rfl
  | callbackRuns t now =>
    simp only [step, callbackRuns]
    split
    · cases hc : (w.timers.obj t).callback with
      | work u sp =>
        have : v ≠ u := by rw [issuer, hc] at hv'; exact hv'
        exact GoMap.set_other _ _ _ _ this
      | rest u =>
        have : v ≠ u := by rw [issuer, hc] at hv'; exact hv'
        exact GoMap.set_other _ _ _ _ this
    · rfl
  | registerUser f n u now =>
    simp only [step, registerUser, GetUser, SaveUser, UpdateUserActivity]
    repeat' split
    all_goals rfl
  | addTask text u now =>
    simp only [step, addTask]
    repeat' split
    all_goals rfl
  | deleteTask text u =>
    simp only [step, deleteTask, DeleteTask]
    repeat' split
    all_goals rfl
  | completeTask text u =>
    simp only [step, completeTask]
    repeat' split
    all_goals rfl
  | completeTaskByID u id =>
    simp only [step, completeTaskByID]
    repeat' split
    all_goals rfl
  | deleteTaskByID u id =>
    simp only [step, deleteTaskByID, DeleteTask]
    repeat' split
    all_goals rfl
  | addGoal text u now d =>
    simp only [step, addGoal]
    repeat' split
    all_goals rfl
  | deleteGoal text u =>
    simp only [step, deleteGoal]
    repeat' split
    all_goals rfl

/-- An event issued for another user leaves a user's registry entry alone. -/
theorem step_active_other (w : World) (e : Event) (v : GoString) (hv : issuer w e ≠ v) :
    (step w e).h.activeTimers v = w.h.activeTimers v := by
  have hv' : v ≠ issuer w e := fun h => hv h.symm
  cases e with
  | startPomodoro u now => exact GoMap.set_other _ _ _ _ hv'
  | stopPomodoro u now => exact delete_if_registered_other _ _ _ hv'
  | startBreak u => exact GoMap.set_other _ _ _ _ hv'
  | timerExpires t =>
    simp only [step, timerExpires]
    repeat' split
    all_goals rfl
  | callbackRuns t now =>
    simp only [step, callbackRuns]
    split
    · cases hc : (w.timers.obj t).callback with
      | work u sp =>
        have : v ≠ u := by rw [issuer, hc] at hv'; exact hv'
        exact (GoMap.delete_apply _ _ _).trans (if_neg this)
      | rest u =>
        have : v ≠ u := by rw [issuer, hc] at hv'; exact hv'
        exact (GoMap.delete_apply _ _ _).trans (if_neg this)
    · rfl
  | registerUser f n u now =>
    simp only [step, registerUser, GetUser, SaveUser, UpdateUserActivity]
    repeat' split
    all_goals rfl
  | addTask text u now =>
    simp only [step, addTask]
    repeat' split
    all_goals rfl
  | deleteTask text u =>
    simp only [step, deleteTask, DeleteTask]
    repeat' split
    all_goals rfl
  | completeTask text u =>
    simp only [step, completeTask]
    repeat' split
    all_goals rfl
  | completeTaskByID u id =>
    simp only [step, completeTaskByID]
    repeat' split
    all_goals rfl
  | deleteTaskByID u id =>
    simp only [step, deleteTaskByID, DeleteTask]
    repeat' split
    all_goals rfl
  | addGoal text u now d =>
    simp only [step, addGoal]
    repeat' split
    all_goals rfl
  | deleteGoal text u =>
    simp only [step, deleteGoal]
    repeat' split
    all_goals rfl

/-- An event issued for another user leaves the timer registered for a user alone. -/
theorem step_timer_obj_other {w : World} (hr : RegistryOK w.timers w.h.activeTimers)
    (ho : OwnersOK w.timers w.h.activeTimers) (e : Event) (v : GoString)
    (hv : issuer w e ≠ v) (t : Ptr) (ht : w.h.activeTimers v = some t) :
    (step w e).timers.obj t = w.timers.obj t := by
  have hlt := hr v t ht
  have hown := ho v t ht
  have hreg : ∀ u, u ≠ v → w.h.activeTimers u ≠ some t := by
    intro u hu hut
    exact hu ((ho u t hut).symm.trans hown)
  by_cases h1 : ∃ u now, e = .startPomodoro u now
  · obtain ⟨u, now, rfl⟩ := h1
    show ((stopRegistered w.timers w.h.activeTimers u).alloc _).obj t = _
    rw [Heap.alloc_obj, stopRegistered_next, if_neg (Nat.ne_of_lt hlt),
      stopRegistered_obj_other _ _ _ _ (hreg u hv)]
  by_cases h2 : ∃ u now, e = .stopPomodoro u now
  · obtain ⟨u, now, rfl⟩ := h2
    exact stopRegistered_obj_other _ _ _ _ (hreg u hv)
  by_cases h3 : ∃ u, e = .startBreak u
  · obtain ⟨u, rfl⟩ := h3
    show ((stopRegistered w.timers w.h.activeTimers u).alloc _).obj t = _
    rw [Heap.alloc_obj, stopRegistered_next, if_neg (Nat.ne_of_lt hlt),
      stopRegistered_obj_other _ _ _ _ (hreg u hv)]
  by_cases h4 : ∃ t0 now, e = .callbackRuns t0 now
  · obtain ⟨t0, now, rfl⟩ := h4
    have hne : t ≠ t0 := by
      intro heq
      subst heq
      exact hv hown
    simp only [step, callbackRuns]
    split
    · cases hc : (w.timers.obj t0).callback with
      | work u sp => exact (Heap.store_obj _ _ _ _).trans (if_neg hne)
      | rest u => exact (Heap.store_obj _ _ _ _).trans (if_neg hne)
    · rfl
  by_cases h5 : ∃ t0, e = .timerExpires t0
  · obtain ⟨t0, rfl⟩ := h5
    have hne : t ≠ t0 := by
      intro heq
      subst heq
      exact hv hown
    simp only [step, timerExpires]
    split
    · exact (Heap.store_obj _ _ _ _).trans (if_neg hne)
    · rfl
  rw [(step_registry_frame w e (fun a b he => h1 ⟨a, b, he⟩)
    (fun a b he => h2 ⟨a, b, he⟩) (fun a he => h3 ⟨a, he⟩) (fun a he => h5 ⟨a, he⟩)
    (fun a b he => h4 ⟨a, b, he⟩)).1]

theorem step_registeredTimer_other {w : World} (hr : RegistryOK w.timers w.h.activeTimers)
    (ho : OwnersOK w.timers w.h.activeTimers) (e : Event) (v : GoString)
    (hv : issuer w e ≠ v) : registeredTimer (step w e) v = registeredTimer w v := by
  unfold registeredTimer
  rw [step_active_other w e v hv]
  cases ht : w.h.activeTimers v with
  | none => rfl
  | some t =>
    simp only [Option.map_some']
    rw [step_timer_obj_other hr ho e v hv t ht]

theorem step_sessionsOf_other {w : World} (h : WF w) (e : Event) (v : GoString)
    (hv : issuer w e ≠ v) : sessionsOf (step w e) v = sessionsOf w v := by
  have hv' : v ≠ issuer w e := fun h => hv h.symm
  by_cases h1 : ∃ u now, e = .startPomodoro u now
  · obtain ⟨u, now, rfl⟩ := h1
    exact startPomodoro_sessionsOf_other h v u now hv'
  by_cases h2 : ∃ u now, e = .stopPomodoro u now
  · obtain ⟨u, now, rfl⟩ := h2
    exact stopPomodoro_sessionsOf_other h v u now hv'
  by_cases h3 : ∃ t now, e = .callbackRuns t now
  · obtain ⟨t, now, rfl⟩ := h3
    exact callbackRuns_sessionsOf_other h t now v hv
  obtain ⟨e1, e2⟩ := step_sessions_frame w e (fun a b he => h1 ⟨a, b, he⟩)
    (fun a b he => h2 ⟨a, b, he⟩) (fun a b he => h3 ⟨a, b, he⟩)
  exact sessionsOf_congr e1 e2 v

theorem step_statsOf_other {w : World} (h : WF w) (e : Event) (v : GoString)
    (hv : issuer w e ≠ v) : statsOf (step w e) v = statsOf w v := by
  rw [step_statsOf h e v]
  have hno : isWorkExpiry w v e = false := by
    cases e with
    | callbackRuns t now =>
      unfold isWorkExpiry
      cases hc : (w.timers.obj t).callback with
      | work u sp =>
        have : ¬ u = v := by rw [issuer, hc] at hv; exact hv
        simp [hc, this]
      | rest u => simp [hc]
    | _ => rfl
  rw [hno]
  rfl

theorem step_tasksOf_other {w : World} (h : WF w) (e : Event) (v : GoString)
    (hv : issuer w e ≠ v) : tasksOf (step w e) v = tasksOf w v := by
  have hv' : v ≠ issuer w e := fun h => hv h.symm
  by_cases h1 : ∃ text u now, e = .addTask text u now
  · obtain ⟨text, u, now, rfl⟩ := h1
    exact addTask_tasksOf_other h text u now v hv'
  by_cases h2 : ∃ text u, e = .deleteTask text u
  · obtain ⟨text, u, rfl⟩ := h2
    exact deleteTask_tasksOf_other w text u v hv'
  by_cases h3 : ∃ text u, e = .completeTask text u
  · obtain ⟨text, u, rfl⟩ := h3
    exact completeTask_tasksOf_other h text u v hv'
  by_cases h4 : ∃ u id, e = .completeTaskByID u id
  · obtain ⟨u, id, rfl⟩ := h4
    exact completeTaskByID_tasksOf_other h u id v hv'
  by_cases h5 : ∃ u id, e = .deleteTaskByID u id
  · obtain ⟨u, id, rfl⟩ := h5
    exact deleteTaskByID_tasksOf_other w u id v hv'
  obtain ⟨e1, e2⟩ := step_tasks_frame w e (fun a b c he => h1 ⟨a, b, c, he⟩)
    (fun a b he => h2 ⟨a, b, he⟩) (fun a b he => h3 ⟨a, b, he⟩)
    (fun a b he => h4 ⟨a, b, he⟩) (fun a b he => h5 ⟨a, b, he⟩)
  exact tasksOf_congr e1 e2 v

theorem step_goalsOf_other {w : World} (h : WF w) (e : Event) (v : GoString)
    (hv : issuer w e ≠ v) : goalsOf (step w e) v = goalsOf w v := by
  have hv' : v ≠ issuer w e := fun h => hv h.symm
  by_cases h1 : ∃ text u now d, e = .addGoal text u now d
  · obtain ⟨text, u, now, d, rfl⟩ := h1
    exact addGoal_goalsOf_other h text u now d v hv'
  obtain ⟨e1, e2⟩ := step_goals_frame w e (fun a b c d he => h1 ⟨a, b, c, d, he⟩)
  exact goalsOf_congr e1 e2 v

theorem step_userOf_other {w : World} (h : WF w) (e : Event) (v : GoString)
    (hv : issuer w e ≠ v) : userOf (step w e) v = userOf w v := by
  have hv' : v ≠ issuer w e := fun h => hv h.symm
  by_cases h1 : ∃ f n u now, e = .registerUser f n u now
  · obtain ⟨f, n, u, now, rfl⟩ := h1
    exact (registerUser_userOf h f n u now v).trans (if_neg hv')
  obtain ⟨e1, e2⟩ := step_users_frame w e (fun a b c d he => h1 ⟨a, b, c, d, he⟩)
  exact userOf_congr e1 e2 v

/-- C14 (per-user independence): in every reachable state, an event issued for a user
other than `v` (a handler call with another user ID, or the expiry or the callback run of
a timer whose callback belongs to another user) leaves what the engine holds for `v` as it was: the
sessions, statistics, tasks, goals and user record the store returns for `v`, the focus
status of `v`, the registry entry of `v` and the timer it refers to. -/
theorem C14_per_user_independence (es : List Event) (e : Event) (v : GoString)
    (hv : issuer (run es) e ≠ v) :
    sessionsOf (step (run es) e) v = sessionsOf (run es) v ∧
    statsOf (step (run es) e) v = statsOf (run es) v ∧
    tasksOf (step (run es) e) v = tasksOf (run es) v ∧
    goalsOf (step (run es) e) v = goalsOf (run es) v ∧
    userOf (step (run es) e) v = userOf (run es) v ∧
    (step (run es) e).h.pomodoroStatus v = (run es).h.pomodoroStatus v ∧
    (step (run es) e).h.activeTimers v = (run es).h.activeTimers v ∧
    registeredTimer (step (run es) e) v = registeredTimer (run es) v :=
  ⟨step_sessionsOf_other (run_WF es) e v hv, step_statsOf_other (run_WF es) e v hv,
    step_tasksOf_other (run_WF es) e v hv, step_goalsOf_other (run_WF es) e v hv,
    step_userOf_other (run_WF es) e v hv, step_status_other (run es) e v hv,
    step_active_other (run es) e v hv,
    step_registeredTimer_other (run_WF es).registry (run_owners es) e v hv⟩

/-- C2 (start then expire): from the fresh handler, the call of startPomodoro for u stores
exactly one session of u (work, 25 minutes, neither completed nor interrupted) and
registers timer 0 as pending; when that timer expires and its callback runs, the same
single session is completed with its end time set, and the statistics of u show one
session and 25 focus minutes. -/
theorem C2_start_then_expire (u : GoString) (now1 now2 : Nat) :
    sessionsOf (run [.startPomodoro u now1]) u =
      [{ ID := itoa now1, UserID := u, StartTime := some now1, EndTime := none, Duration := 25,
         Completed := false, SessionType := goString "work", Interrupted := false }] ∧
    (run [.startPomodoro u now1]).h.activeTimers u = some 0 ∧
    armedFor (run [.startPomodoro u now1]) u 0 ∧
    sessionsOf (run [.startPomodoro u now1, .timerExpires 0, .callbackRuns 0 now2]) u =
      [{ ID := itoa now1, UserID := u, StartTime := some now1, EndTime := some now2,
         Duration := 25, Completed := true, SessionType := goString "work",
         Interrupted := false }] ∧
    statsOf (run [.startPomodoro u now1, .timerExpires 0, .callbackRuns 0 now2]) u =
      { UserID := u, TotalSessions := 1, CompletedToday := 1, TotalFocusTime := 25,
        CurrentStreak := 0 } := by
  refine ⟨?_, ?_, ?_, ?_, ?_⟩
  · simp [run, runFrom, step, startPomodoro, sessionsOf, GetUserPomodoroSessions,
      SavePomodoroSession, New, NewMemoryStorage, Heap.empty, Heap.alloc, sliceAt]
  · simp [run, runFrom, step, startPomodoro, New, NewMemoryStorage, Heap.empty, Heap.alloc,
      stopTimer]
  · simp [armedFor, run, runFrom, step, startPomodoro, New, NewMemoryStorage, Heap.empty,
      Heap.alloc, stopTimer, Callback.userID]
  · simp [run, runFrom, step, startPomodoro, timerExpires, callbackRuns, completePomodoro,
      sessionsOf, GetUserPomodoroSessions, GetPomodoroStats, UpdatePomodoroStats,
      SavePomodoroSession, New, NewMemoryStorage, Heap.empty, Heap.alloc, Heap.store, sliceAt,
      stopTimer]
  · simp [run, runFrom, step, startPomodoro, timerExpires, callbackRuns, completePomodoro,
      statsOf, GetUserPomodoroSessions, GetPomodoroStats, UpdatePomodoroStats,
      SavePomodoroSession, New, NewMemoryStorage, Heap.empty, Heap.alloc, Heap.store, sliceAt,
      stopTimer]

/-- C5 (failing run): user 7 presses start, stop and start again within Unix second 100,
so both sessions get the ID "100".  The first session is interrupted, timer 1 (of the
second session) is pending; when it expires and its callback runs, completePomodoro marks
the first session with that ID, so the interrupted session becomes completed as well. -/
theorem C5_completion_hits_stopped_session :
    (sessionsOf (run [.startPomodoro (goString "7") 100, .stopPomodoro (goString "7") 100,
        .startPomodoro (goString "7") 100]) (goString "7")).map
      (fun s => (s.ID, s.Interrupted, s.Completed))
      = [(itoa 100, true, false), (itoa 100, false, false)] ∧
    armedFor (run [.startPomodoro (goString "7") 100, .stopPomodoro (goString "7") 100,
        .startPomodoro (goString "7") 100]) (goString "7") 1 ∧
    (sessionsOf (run [.startPomodoro (goString "7") 100, .stopPomodoro (goString "7") 100,
        .startPomodoro (goString "7") 100, .timerExpires 1, .callbackRuns 1 1600])
        (goString "7")).map
      (fun s => (s.ID, s.Interrupted, s.Completed))
      = [(itoa 100, true, true), (itoa 100, false, false)] := by
  decide

/-- C4 (failing run): user 7 starts a session at second 100; timer 0 expires at second
1600 and the runtime starts its callback in a goroutine; before the callback body runs,
the handler serves another start of user 7, whose Stop call on the expired timer has no
effect and which registers the new timer 1; then the callback of timer 0 runs and deletes
the registry entry of user 7.  Now timer 1 is pending but not registered, and the next
start at second 1601 cannot stop it: timers 1 and 2 are both pending for user 7. -/
theorem C4_two_pending_timers :
    armedFor (run [.startPomodoro (goString "7") 100, .timerExpires 0,
        .startPomodoro (goString "7") 1600, .callbackRuns 0 1600]) (goString "7") 1 ∧
    (run [.startPomodoro (goString "7") 100, .timerExpires 0,
        .startPomodoro (goString "7") 1600, .callbackRuns 0 1600]).h.activeTimers (goString "7")
      = none ∧
    armedFor (run [.startPomodoro (goString "7") 100, .timerExpires 0,
        .startPomodoro (goString "7") 1600, .callbackRuns 0 1600,
        .startPomodoro (goString "7") 1601]) (goString "7") 1 ∧
    armedFor (run [.startPomodoro (goString "7") 100, .timerExpires 0,
        .startPomodoro (goString "7") 1600, .callbackRuns 0 1600,
        .startPomodoro (goString "7") 1601]) (goString "7") 2 ∧
    (run [.startPomodoro (goString "7") 100, .timerExpires 0,
        .startPomodoro (goString "7") 1600, .callbackRuns 0 1600,
        .startPomodoro (goString "7") 1601]).h.activeTimers (goString "7") = some 2 := by
  decide

/-- Witness for C14: users 7 and 8 both have a running session and a task; the work timer
of user 7 has expired, then its callback runs, and nothing of user 8 changes. -/
theorem C14_per_user_independence_witness :
    issuer (run [.startPomodoro (goString "7") 100, .startPomodoro (goString "8") 100,
        .addTask (goString "добавить задачу a") (goString "8") 101, .timerExpires 0])
      (.callbackRuns 0 1600) ≠ goString "8" ∧
    sessionsOf (step (run [.startPomodoro (goString "7") 100, .startPomodoro (goString "8") 100,
        .addTask (goString "добавить задачу a") (goString "8") 101, .timerExpires 0])
        (.callbackRuns 0 1600))
      (goString "8")
      = sessionsOf (run [.startPomodoro (goString "7") 100, .startPomodoro (goString "8") 100,
        .addTask (goString "добавить задачу a") (goString "8") 101, .timerExpires 0])
        (goString "8") :=
  ⟨by decide,
    (C14_per_user_independence
      [.startPomodoro (goString "7") 100, .startPomodoro (goString "8") 100,
        .addTask (goString "добавить задачу a") (goString "8") 101, .timerExpires 0]
      (.callbackRuns 0 1600) (goString "8") (by decide)).1⟩

end Proddy
